import Mathlib

/-!
Verification of the lsm-tree-kv storage engine.

Shallow embedding of the three source modules:
  memtable.rs : sorted in-memory write buffer (BTreeMap keyed by byte strings)
  sstable.rs  : on-disk sorted-file format, builder and reader
  lsm.rs      : the LSM tree orchestrator (read path, flush, recovery)

Modelling conventions:
  Bytes are List Nat (each element a byte value).  Rust BTreeMap over Vec of
  bytes is modelled as a strictly-sorted association list ordered by the
  byte-lexicographic order bytesLt.  Machine integers are Nat with explicit
  truncation (mod 256 per byte) at the serialization boundary, mirroring the
  little-endian to_le_bytes and from_le_bytes calls.  Fallible operations
  return an explicit result; a Rust panic (slice out of bounds, .expect) is a
  distinct outcome, not an error value.  File-system reads and writes are
  modelled on explicit byte lists; the possibility of an underlying I/O
  failure during a flush is an explicit boolean oracle parameter.
-/

namespace LsmKv

/-! # Part 1: Definitions (the shallow embedding) -/

/-! ## Byte-level helpers: little-endian encoding (to_le_bytes / from_le_bytes) -/

/-- Encode a natural number as a little-endian byte list of the given width,
truncating like a Rust as-cast (mod 2 to the 8w). -/
def leBytes : Nat → Nat → List Nat
  | _, 0 => []
  | n, w + 1 => n % 256 :: leBytes (n / 256) w

/-- Decode a little-endian byte list into a natural number
(u32 or u64 from_le_bytes). -/
def leNat : List Nat → Nat
  | [] => 0
  | b :: bs => b + 256 * leNat bs

/-- Lexicographic order on byte strings, as used by the Rust BTreeMap key
comparison on Vec of bytes. -/
def bytesLt : List Nat → List Nat → Bool
  | [], [] => false
  | [], _ :: _ => true
  | _ :: _, [] => false
  | a :: as, b :: bs => if a < b then true else if b < a then false else bytesLt as bs

/-- Lookup in an association list (BTreeMap get; the maps we build are
strictly sorted, so the first match is the only one). -/
def mapGet {α : Type} : List (List Nat × α) → List Nat → Option α
  | [], _ => none
  | (k', v') :: rest, k => if k = k' then some v' else mapGet rest k

/-- Insert-or-replace in a sorted association list (BTreeMap insert). -/
def mapInsert {α : Type} (k : List Nat) (v : α) : List (List Nat × α) → List (List Nat × α)
  | [] => [(k, v)]
  | (k', v') :: rest =>
    if k = k' then (k, v) :: rest
    else if bytesLt k k' then (k, v) :: (k', v') :: rest
    else (k', v') :: mapInsert k v rest

/-- Keys strictly ascending in byte-lexicographic order. -/
def keysSorted {α : Type} (l : List (List Nat × α)) : Prop :=
  l.Pairwise (fun p q => bytesLt p.1 q.1 = true)

instance keysSortedDec {α : Type} (l : List (List Nat × α)) : Decidable (keysSorted l) := by
  unfold keysSorted
  infer_instance

/-- Value variant stored in the memtable: an actual value or a tombstone. -/
inductive Value : Type
  | Some (v : List Nat)
  | Tombstone
deriving DecidableEq

/-- Payload byte count of a value: tombstones contribute zero. -/
def payloadLen : Value → Nat
  | Value.Some v => v.length
  | Value.Tombstone => 0

/-- In-memory write buffer: a sorted map plus the approximate size accumulator. -/
structure Memtable where
  data : List (List Nat × Value)
  size_bytes : Nat
deriving DecidableEq

/-- Memtable::new -/
def Memtable.new : Memtable := ⟨[], 0⟩

/-- Memtable::get -/
def Memtable.get (m : Memtable) (key : List Nat) : Option Value :=
  mapGet m.data key

/-- Memtable::put.  On replacement of a stored value the previous payload
size is subtracted (usize subtraction); on replacement of a tombstone only
the new payload is added; on a fresh key, key length plus payload length. -/
def Memtable.put (m : Memtable) (key value : List Nat) : Memtable :=
  match mapGet m.data key with
  | some (Value.Some old) =>
    ⟨mapInsert key (Value.Some value) m.data, m.size_bytes - old.length + value.length⟩
  | some Value.Tombstone =>
    ⟨mapInsert key (Value.Some value) m.data, m.size_bytes + value.length⟩
  | none =>
    ⟨mapInsert key (Value.Some value) m.data, m.size_bytes + key.length + value.length⟩

/-- Memtable::delete.  An existing tombstone is a no-op (early return); a
stored value has its payload length subtracted; an absent key adds the key
length, and a tombstone is recorded. -/
def Memtable.delete (m : Memtable) (key : List Nat) : Memtable :=
  match mapGet m.data key with
  | some (Value.Some old) => ⟨mapInsert key Value.Tombstone m.data, m.size_bytes - old.length⟩
  | some Value.Tombstone => m
  | none => ⟨mapInsert key Value.Tombstone m.data, m.size_bytes + key.length⟩

/-- Memtable::len -/
def Memtable.len (m : Memtable) : Nat := m.data.length

/-- Memtable::is_empty -/
def Memtable.is_empty (m : Memtable) : Bool := m.data.isEmpty

/-! ### Size accounting (C5 machinery) -/

/-- Byte contribution of one entry: key length plus payload length
(payload counts only for stored values). -/
def entrySize (e : List Nat × Value) : Nat := e.1.length + payloadLen e.2

/-- The specified size of a memtable: the sum of entry sizes. -/
def specSize (l : List (List Nat × Value)) : Nat := (l.map entrySize).sum

/-- The memtable invariant: keys sorted and the accumulator matches the
specified size. -/
def MemtableInv (m : Memtable) : Prop :=
  keysSorted m.data ∧ m.size_bytes = specSize m.data

/-- One memtable operation, for stating properties over operation sequences. -/
inductive MemOp : Type
  | put (key value : List Nat)
  | del (key : List Nat)

/-- Apply one operation. -/
def applyOp (m : Memtable) : MemOp → Memtable
  | MemOp.put key value => m.put key value
  | MemOp.del key => m.delete key

/-- Apply a sequence of operations in order. -/
def applyOps (m : Memtable) : List MemOp → Memtable
  | [] => m
  | op :: rest => applyOps (applyOp m op) rest

/-! ## lib.rs : error taxonomy -/

/-- Error type of the library (lib.rs); the payload of the I/O variant
(a std io::Error) is dropped, message strings are kept. -/
inductive Error : Type
  | Io
  | Corruption (msg : String)
  | InvalidArgument (msg : String)
deriving DecidableEq

instance exceptDecEq {ε α : Type} [DecidableEq ε] [DecidableEq α] :
    DecidableEq (Except ε α)
  | Except.error e, Except.error f =>
    if h : e = f then isTrue (by rw [h]) else isFalse (fun hc => h (by injection hc))
  | Except.error _, Except.ok _ => isFalse (fun hc => Except.noConfusion hc)
  | Except.ok _, Except.error _ => isFalse (fun hc => Except.noConfusion hc)
  | Except.ok a, Except.ok b =>
    if h : a = b then isTrue (by rw [h]) else isFalse (fun hc => h (by injection hc))

/-! ## sstable.rs : builder -/

/-- Magic number for SSTable files ("SSTABLE1" in ASCII). -/
def MAGIC_NUMBER : Nat := 0x5353544142454c31

/-- Size of the footer in bytes. -/
def FOOTER_SIZE : Nat := 32

/-- SSTable builder state: the bytes written so far through the buffered
writer, the in-memory index as a Vec of (key, data-block offset) pairs in
insertion order, the current data-block offset, and the entry counter. -/
structure SSTableBuilder where
  buf : List Nat
  index : List (List Nat × Nat)
  current_offset : Nat
  num_entries : Nat
deriving DecidableEq

/-- Result of SSTableBuilder::new.  The source runs
File::create followed by .expect, so a creation failure panics
instead of returning the Err that the Result signature advertises. -/
inductive NewResult : Type
  | ok (b : SSTableBuilder)
  | panik
deriving DecidableEq

/-- SSTableBuilder::new, parameterized by whether File::create succeeds at
the given path. -/
def SSTableBuilder.new (createOk : Bool) : NewResult :=
  if createOk then NewResult.ok ⟨[], [], 0, 0⟩ else NewResult.panik

/-- SSTableBuilder::add (success path of the buffered writes): append one
record to the data block — key_len (u32 LE), key, value_len (u32 LE),
payload bytes for a stored value or nothing for a tombstone, tombstone
flag byte — record (key, offset) in the index, bump the entry counter. -/
def SSTableBuilder.add (b : SSTableBuilder) (key : List Nat) (value : Value) : SSTableBuilder :=
  match value with
  | Value.Some val =>
    { buf := b.buf ++ leBytes key.length 4 ++ key ++ leBytes val.length 4 ++ val ++ [0]
      index := b.index ++ [(key, b.current_offset)]
      current_offset := b.current_offset + 4 + key.length + (4 + val.length + 1)
      num_entries := b.num_entries + 1 }
  | Value.Tombstone =>
    { buf := b.buf ++ leBytes key.length 4 ++ key ++ leBytes 0 4 ++ [1]
      index := b.index ++ [(key, b.current_offset)]
      current_offset := b.current_offset + 4 + key.length + (4 + 1)
      num_entries := b.num_entries + 1 }

/-- SSTableBuilder::finish (success path): write the index block (one
entry per recorded index pair, in insertion order), then the 32-byte
footer — index_offset (u64), index_len (u32), num_entries (u32), magic
(u64), reserved (u64), all little-endian — and flush; the result is the
final file contents. -/
def SSTableBuilder.finish (b : SSTableBuilder) : List Nat :=
  let indexBlock := (b.index.map (fun e => leBytes e.1.length 4 ++ e.1 ++ leBytes e.2 8)).flatten
  b.buf ++ indexBlock ++
    leBytes b.current_offset 8 ++ leBytes indexBlock.length 4 ++
    leBytes b.num_entries 4 ++ leBytes MAGIC_NUMBER 8 ++ leBytes 0 8

/-! ## sstable.rs : reader -/

/-- An opened SSTable: the numeric file stem (the 8-digit sequence number
of the file name), the file contents standing in for the file handle, the
parsed in-memory index, and the entry count from the footer. -/
structure SSTable where
  path : Nat
  file : List Nat
  index : List (List Nat × Nat)
  num_entries : Nat
deriving DecidableEq

/-- A seek to absolute offset off followed by read_exact of len bytes:
read_exact fails with UnexpectedEof unless the whole range lies within the
file (a seek past the end succeeds by itself). -/
def readBytes (file : List Nat) (off len : Nat) : Option (List Nat) :=
  if off + len ≤ file.length then some ((file.drop off).take len) else none

/-- The index-parsing loop of SSTable::open, phrased on the unconsumed
suffix of index_buf: while bytes remain, slice key_len (4 bytes), the key,
and the offset (8 bytes), inserting into the BTreeMap.  Any slice that
would run past the end of index_buf panics in the source (slice index out
of bounds), modelled as none.  The loop is driven by a fuel counter so
that it is structurally recursive (and hence computable by the kernel);
parseIndexRec below starts the fuel at the buffer length, and since every
iteration consumes at least 12 bytes of the buffer while spending one unit
of fuel, the fuel-exhaustion arm is unreachable from parseIndexRec. -/
def parseIndexLoop (fuel : Nat) (buf : List Nat) (acc : List (List Nat × Nat)) :
    Option (List (List Nat × Nat)) :=
  if buf.length = 0 then some acc
  else
    match fuel with
    | 0 => none
    | fuel + 1 =>
      if 4 ≤ buf.length then
        let key_len := leNat (buf.take 4)
        let rest := buf.drop 4
        if key_len ≤ rest.length then
          let key := rest.take key_len
          let rest2 := rest.drop key_len
          if 8 ≤ rest2.length then
            parseIndexLoop fuel (rest2.drop 8) (mapInsert key (leNat (rest2.take 8)) acc)
          else none
        else none
      else none

/-- The while-loop of SSTable::open over the whole index buffer. -/
def parseIndexRec (buf : List Nat) (acc : List (List Nat × Nat)) :
    Option (List (List Nat × Nat)) :=
  parseIndexLoop buf.length buf acc

/-- Result of SSTable::open: a reader, an error, or a Rust panic (only the
index-parsing slices can panic). -/
inductive OpenResult : Type
  | ok (s : SSTable)
  | err (e : Error)
  | panik
deriving DecidableEq

/-- SSTable::open on the contents of the file at the given path.  A file
shorter than the 32-byte footer makes the initial SeekFrom::End(-32) fail
with an I/O error; the footer fields are parsed little-endian; a magic
mismatch is a corruption error; then the index block is read (I/O error if
the recorded range runs past the end of the file) and parsed into the
in-memory index. -/
def SSTable.open (path : Nat) (file : List Nat) : OpenResult :=
  if file.length < FOOTER_SIZE then OpenResult.err Error.Io
  else
    let footer := file.drop (file.length - FOOTER_SIZE)
    let index_offset := leNat (footer.take 8)
    let index_len := leNat ((footer.drop 8).take 4)
    let num_entries := leNat ((footer.drop 12).take 4)
    let magic := leNat ((footer.drop 16).take 8)
    if magic ≠ MAGIC_NUMBER then OpenResult.err (Error.Corruption "Invalid magic number")
    else
      match readBytes file index_offset index_len with
      | none => OpenResult.err Error.Io
      | some index_buf =>
        match parseIndexRec index_buf [] with
        | none => OpenResult.panik
        | some index => OpenResult.ok ⟨path, file, index, num_entries⟩

/-- SSTable::get: look up the key in the in-memory index (an index miss
returns None with no disk access), seek to the recorded offset, re-parse
the record, cross-check the on-disk key against the queried key (corruption
error on mismatch), read the payload when value_len is positive, then the
tombstone flag byte decides the variant. -/
def SSTable.get (s : SSTable) (key : List Nat) : Except Error (Option Value) :=
  match mapGet s.index key with
  | none => Except.ok none
  | some offset =>
    match readBytes s.file offset 4 with
    | none => Except.error Error.Io
    | some key_len_buf =>
      let key_len := leNat key_len_buf
      match readBytes s.file (offset + 4) key_len with
      | none => Except.error Error.Io
      | some key_buf =>
        if key_buf ≠ key then Except.error (Error.Corruption "Key mismatch at indexed offset")
        else
          match readBytes s.file (offset + 4 + key_len) 4 with
          | none => Except.error Error.Io
          | some value_len_buf =>
            let value_len := leNat value_len_buf
            match (if 0 < value_len
                   then readBytes s.file (offset + 4 + key_len + 4) value_len
                   else some []) with
            | none => Except.error Error.Io
            | some value_buf =>
              match readBytes s.file (offset + 4 + key_len + 4 + value_len) 1 with
              | none => Except.error Error.Io
              | some tombstone_buf =>
                if tombstone_buf.headD 0 = 1 then Except.ok (some Value.Tombstone)
                else Except.ok (some (Value.Some value_buf))

/-! ## lsm.rs : the tree -/

/-- Flush threshold (4 KB). -/
def MEMTABLE_SIZE_THRESHOLD : Nat := 4096

/-- The LSM tree.  l0_sstables is the VecDeque of readers, head = front =
newest.  disk models the set of .sst files in the data directory as
(numeric 8-digit file stem, contents) pairs — the fixed-width zero-padded
decimal names make lexicographic name order coincide with numeric order.
sst_counter is the file-name counter (all operations are single-threaded,
so the AtomicUsize fetch_add is a plain increment). -/
structure LSMTree where
  memtable : Memtable
  l0_sstables : List SSTable
  disk : List (Nat × List Nat)
  sst_counter : Nat
deriving DecidableEq

/-- The loop over L0 SSTables in LSMTree::get, newest to oldest: the first
reader returning any entry decides; errors propagate. -/
def scanL0 : List SSTable → List Nat → Except Error (Option (List Nat))
  | [], _ => Except.ok none
  | sst :: rest, key =>
    match sst.get key with
    | Except.error e => Except.error e
    | Except.ok (some (Value.Some v)) => Except.ok (some v)
    | Except.ok (some Value.Tombstone) => Except.ok none
    | Except.ok none => scanL0 rest key

/-- LSMTree::get: check the active memtable first, then the L0 readers
newest-first. -/
def LSMTree.get (t : LSMTree) (key : List Nat) : Except Error (Option (List Nat)) :=
  match t.memtable.get key with
  | some (Value.Some v) => Except.ok (some v)
  | some Value.Tombstone => Except.ok none
  | none => scanL0 t.l0_sstables key

/-- The builder run of the flush loop: add every memtable entry in
ascending order to a fresh builder and finish, yielding the file bytes. -/
def buildFile (entries : List (List Nat × Value)) : List Nat :=
  (entries.foldl (fun (b : SSTableBuilder) e => b.add e.1 e.2)
    (⟨[], [], 0, 0⟩ : SSTableBuilder)).finish

/-- LSMTree::flush_memtable.  No-op on an empty memtable.  Otherwise the
counter is advanced first (fetch_add), before any I/O.  The fallible I/O of
the flush — the write_all calls inside add and finish, and the reopening
SSTable::open — is a sequence of local steps that touch no tree state;
ioFail = true means one of them fails with an I/O error, in which case the
bytes already written remain on disk as strayBytes and the error propagates
with the memtable and reader deque untouched, since the source clears the
memtable and pushes the new reader only after every step succeeded.  (A
failure of File::create inside SSTableBuilder::new would panic instead —
see SSTableBuilder.new — so it never reaches the error return.)  The err
and panik arms of the reopening match are unreachable for builder-produced
files (sstOpen_buildFile below). -/
def LSMTree.flush_memtable (t : LSMTree) (ioFail : Bool) (strayBytes : List Nat) :
    LSMTree × Option Error :=
  if t.memtable.is_empty then (t, none)
  else
    let sst_num := t.sst_counter
    let t1 : LSMTree := { t with sst_counter := t.sst_counter + 1 }
    if ioFail then ({ t1 with disk := t1.disk ++ [(sst_num, strayBytes)] }, some Error.Io)
    else
      let file := buildFile t1.memtable.data
      let t2 : LSMTree := { t1 with disk := t1.disk ++ [(sst_num, file)] }
      match SSTable.open sst_num file with
      | OpenResult.ok sst =>
        ({ t2 with l0_sstables := sst :: t2.l0_sstables, memtable := Memtable.new }, none)
      | OpenResult.err e => (t2, some e)
      | OpenResult.panik => (t2, some Error.Io)

/-- LSMTree::put: apply to the memtable, then flush if the size accumulator
reached the threshold. -/
def LSMTree.put (t : LSMTree) (key value : List Nat) (ioFail : Bool) (strayBytes : List Nat) :
    LSMTree × Option Error :=
  let t1 : LSMTree := { t with memtable := t.memtable.put key value }
  if t1.memtable.size_bytes ≥ MEMTABLE_SIZE_THRESHOLD then t1.flush_memtable ioFail strayBytes
  else (t1, none)

/-- LSMTree::delete: apply to the memtable, then flush if the size
accumulator reached the threshold. -/
def LSMTree.delete (t : LSMTree) (key : List Nat) (ioFail : Bool) (strayBytes : List Nat) :
    LSMTree × Option Error :=
  let t1 : LSMTree := { t with memtable := t.memtable.delete key }
  if t1.memtable.size_bytes ≥ MEMTABLE_SIZE_THRESHOLD then t1.flush_memtable ioFail strayBytes
  else (t1, none)

/-- One insertion step of sst_paths.sort by numeric file stem (the 8-digit
zero-padded names sort lexicographically in numeric order). -/
def insertByNum (e : Nat × List Nat) : List (Nat × List Nat) → List (Nat × List Nat)
  | [] => [e]
  | f :: rest => if e.1 ≤ f.1 then e :: f :: rest else f :: insertByNum e rest

/-- sst_paths.sort: sort the directory entries by file name. -/
def sortByNum (l : List (Nat × List Nat)) : List (Nat × List Nat) :=
  l.foldr insertByNum []

/-- Result of the recovery loop in LSMTree::open. -/
inductive RecovResult : Type
  | ok (l0 : List SSTable) (maxNum : Nat)
  | err (e : Error)
  | panik
deriving DecidableEq

/-- The recovery loop of LSMTree::open: open each file in ascending name
order, track the maximum sequence number parsed from the file stem, and
push each reader to the front of the deque (so the result is newest
first). -/
def recoverLoop : List (Nat × List Nat) → List SSTable → Nat → RecovResult
  | [], l0, maxn => RecovResult.ok l0 maxn
  | (num, contents) :: rest, l0, maxn =>
    match SSTable.open num contents with
    | OpenResult.ok sst =>
      recoverLoop rest (sst :: l0) (if maxn < num then num else maxn)
    | OpenResult.err e => RecovResult.err e
    | OpenResult.panik => RecovResult.panik

/-- Result of LSMTree::open. -/
inductive TreeOpenResult : Type
  | ok (t : LSMTree)
  | err (e : Error)
  | panik
deriving DecidableEq

/-- LSMTree::open on a directory holding the given .sst files (the source
filters on the .sst extension; the tree itself never creates other files).
The counter is set to one more than the maximum sequence number found (1
when the directory is empty); the memtable starts empty.  Errors from any
SSTable::open propagate; a panic there propagates as a panic. -/
def LSMTree.open (disk : List (Nat × List Nat)) : TreeOpenResult :=
  match recoverLoop (sortByNum disk) [] 0 with
  | RecovResult.ok l0 maxn => TreeOpenResult.ok ⟨Memtable.new, l0, disk, maxn + 1⟩
  | RecovResult.err e => TreeOpenResult.err e
  | RecovResult.panik => TreeOpenResult.panik

/-! ## Derived layout descriptions (closed forms of the builder output) -/

/-- One data-block record as laid out by SSTableBuilder::add. -/
def record (e : List Nat × Value) : List Nat :=
  match e.2 with
  | Value.Some val => leBytes e.1.length 4 ++ e.1 ++ leBytes val.length 4 ++ val ++ [0]
  | Value.Tombstone => leBytes e.1.length 4 ++ e.1 ++ leBytes 0 4 ++ [1]

/-- The data block: the records of all entries in order. -/
def dataBlock (es : List (List Nat × Value)) : List Nat := (es.map record).flatten

/-- The (key, offset) pairs the builder records, starting at offset off. -/
def offsetsFrom : Nat → List (List Nat × Value) → List (List Nat × Nat)
  | _, [] => []
  | off, e :: rest => (e.1, off) :: offsetsFrom (off + (record e).length) rest

/-- One index-block entry as laid out by SSTableBuilder::finish. -/
def indexEntry (p : List Nat × Nat) : List Nat :=
  leBytes p.1.length 4 ++ p.1 ++ leBytes p.2 8

/-- The index block of a built file. -/
def indexBlock (es : List (List Nat × Value)) : List Nat :=
  ((offsetsFrom 0 es).map indexEntry).flatten

/-- The footer of a built file. -/
def footerBytes (es : List (List Nat × Value)) : List Nat :=
  leBytes (dataBlock es).length 8 ++ leBytes (indexBlock es).length 4 ++
    leBytes es.length 4 ++ leBytes MAGIC_NUMBER 8 ++ leBytes 0 8

/-- The magic field of a file's footer, read the way SSTable::open reads
it (meaningful when the file is at least FOOTER_SIZE bytes long). -/
def footerMagic (file : List Nat) : Nat :=
  leNat (((file.drop (file.length - FOOTER_SIZE)).drop 16).take 8)

/-- Spec-side layered lookup over layers of entries, newest first: the
first layer holding the key decides (value or tombstone), older layers are
never consulted. -/
def layeredLookup : List (List (List Nat × Value)) → List Nat → Option (List Nat)
  | [], _ => none
  | es :: rest, k =>
    match mapGet es k with
    | some (Value.Some v) => some v
    | some Value.Tombstone => none
    | none => layeredLookup rest k

/-- Well-formedness of the entry list of one flushed file: keys strictly
ascending, and sizes below the integer-width limits of the format. -/
def entriesWF (es : List (List Nat × Value)) : Prop :=
  keysSorted es ∧ (∀ e ∈ es, e.1.length < 2 ^ 32 ∧ payloadLen e.2 < 2 ^ 32) ∧
    (dataBlock es).length < 2 ^ 64 ∧ (indexBlock es).length < 2 ^ 32 ∧ es.length < 2 ^ 32

instance entriesWFDec (es : List (List Nat × Value)) : Decidable (entriesWF es) := by
  unfold entriesWF
  infer_instance

/-- The reader produced by opening a freshly built file. -/
def builtReader (num : Nat) (es : List (List Nat × Value)) : SSTable :=
  ⟨num, buildFile es, offsetsFrom 0 es, es.length⟩

/-- The maximum sequence number among the files of a directory (0 if
none). -/
def maxSeqNum (disk : List (Nat × List Nat)) : Nat :=
  (disk.map Prod.fst).foldl Nat.max 0

/-! # Part 2: Supporting lemmas -/

@[simp] theorem leBytes_length (n w : Nat) : (leBytes n w).length = w := by
  induction w generalizing n with
  | zero => rfl
  | succ w ih => simp [leBytes, ih]

theorem leNat_leBytes (n w : Nat) (h : n < 256 ^ w) : leNat (leBytes n w) = n := by
  induction w generalizing n with
  | zero => simp [leBytes, leNat]; omega
  | succ w ih =>
    have hdiv : n / 256 < 256 ^ w := by
      have : 256 ^ (w + 1) = 256 ^ w * 256 := by ring
      omega
    simp [leBytes, leNat, ih (n / 256) hdiv]
    omega

/-! ## Byte-lexicographic order (the Ord instance of Vec of bytes) -/

theorem bytesLt_irrefl (a : List Nat) : bytesLt a a = false := by
  induction a with
  | nil => rfl
  | cons x xs ih => simp [bytesLt, ih]

theorem bytesLt_asymm : ∀ {a b : List Nat}, bytesLt a b = true → bytesLt b a = false
  | [], [], h => by simp [bytesLt] at h
  | [], _ :: _, _ => rfl
  | x :: xs, [], h => by simp [bytesLt] at h
  | x :: xs, y :: ys, h => by
    simp only [bytesLt] at h ⊢
    by_cases hxy : x < y
    · have h1 : ¬y < x := by omega
      simp [hxy, h1]
    · by_cases hyx : y < x
      · simp [hxy, hyx] at h
      · simp only [hxy, if_false, hyx] at h ⊢
        exact bytesLt_asymm h

theorem bytesLt_total : ∀ {a b : List Nat}, a ≠ b →
    bytesLt a b = true ∨ bytesLt b a = true
  | [], [], h => absurd rfl h
  | [], _ :: _, _ => Or.inl rfl
  | _ :: _, [], _ => Or.inr rfl
  | x :: xs, y :: ys, h => by
    by_cases hxy : x < y
    · exact Or.inl (by simp [bytesLt, hxy])
    · by_cases hyx : y < x
      · exact Or.inr (by simp [bytesLt, hyx])
      · have hx : x = y := by omega
        subst hx
        have hxs : xs ≠ ys := fun hc => h (by rw [hc])
        rcases bytesLt_total hxs with h1 | h1
        · exact Or.inl (by simp [bytesLt, h1])
        · exact Or.inr (by simp [bytesLt, h1])

theorem bytesLt_trans : ∀ {a b c : List Nat},
    bytesLt a b = true → bytesLt b c = true → bytesLt a c = true
  | [], _, _ :: _, _, _ => rfl
  | [], _ :: _, [], _, h2 => by simp [bytesLt] at h2
  | [], [], _, h1, _ => by simp [bytesLt] at h1
  | _ :: _, [], _, h1, _ => by simp [bytesLt] at h1
  | _ :: _, _ :: _, [], _, h2 => by simp [bytesLt] at h2
  | x :: xs, y :: ys, z :: zs, h1, h2 => by
    simp only [bytesLt] at h1 h2 ⊢
    by_cases hxy : x < y <;> by_cases hyz : y < z
    · have : x < z := by omega
      simp [this]
    · by_cases hzy : z < y
      · simp [hxy, hyz, hzy] at h2
      · have : y = z := by omega
        subst this
        simp [hxy]
    · by_cases hyx : y < x
      · simp [hxy, hyx] at h1
      · have : x = y := by omega
        subst this
        simp [hyz]
    · by_cases hyx : y < x
      · simp [hxy, hyx] at h1
      · by_cases hzy : z < y
        · simp [hyz, hzy] at h2
        · have hxy' : x = y := by omega
          have hyz' : y = z := by omega
          subst hxy'; subst hyz'
          simp only [Nat.lt_irrefl, if_false] at h1 h2 ⊢
          exact bytesLt_trans h1 h2

/-! ## Association maps over byte-string keys (models BTreeMap) -/

theorem mapGet_cons_eq {α : Type} {k k' : List Nat} (v' : α) (rest : List (List Nat × α))
    (h : k = k') : mapGet ((k', v') :: rest) k = some v' := by
  simp [mapGet, h]

theorem mapGet_cons_ne {α : Type} {k k' : List Nat} (v' : α) (rest : List (List Nat × α))
    (h : k ≠ k') : mapGet ((k', v') :: rest) k = mapGet rest k := by
  simp [mapGet, h]

theorem mapInsert_cons_eq {α : Type} {k k' : List Nat} (v v' : α) (rest : List (List Nat × α))
    (h : k = k') : mapInsert k v ((k', v') :: rest) = (k, v) :: rest := by
  simp [mapInsert, h]

theorem mapInsert_cons_lt {α : Type} {k k' : List Nat} (v v' : α) (rest : List (List Nat × α))
    (h : k ≠ k') (hlt : bytesLt k k' = true) :
    mapInsert k v ((k', v') :: rest) = (k, v) :: (k', v') :: rest := by
  simp only [mapInsert]
  rw [if_neg h, if_pos hlt]

theorem mapInsert_cons_gt {α : Type} {k k' : List Nat} (v v' : α) (rest : List (List Nat × α))
    (h : k ≠ k') (hlt : ¬bytesLt k k' = true) :
    mapInsert k v ((k', v') :: rest) = (k', v') :: mapInsert k v rest := by
  simp only [mapInsert]
  rw [if_neg h, if_neg hlt]

theorem mapInsert_ne_nil {α : Type} (k : List Nat) (v : α) (l : List (List Nat × α)) :
    mapInsert k v l ≠ [] := by
  cases l with
  | nil => simp [mapInsert]
  | cons p rest =>
    obtain ⟨k', v'⟩ := p
    simp only [mapInsert]
    split <;> [skip; split] <;> simp

theorem mapGet_mem {α : Type} : ∀ {l : List (List Nat × α)} {k : List Nat} {v : α},
    mapGet l k = some v → (k, v) ∈ l
  | [], k, v, h => by simp [mapGet] at h
  | (k', v') :: rest, k, v, h => by
    simp only [mapGet] at h
    by_cases hk : k = k'
    · simp [hk] at h
      subst hk; subst h
      exact List.mem_cons_self _ _
    · simp [hk] at h
      exact List.mem_cons_of_mem _ (mapGet_mem h)

theorem mem_mapInsert {α : Type} : ∀ {l : List (List Nat × α)} {k : List Nat} {v : α} {p},
    p ∈ mapInsert k v l → p ∈ l ∨ p = (k, v)
  | [], k, v, p, h => by simp [mapInsert] at h; exact Or.inr h
  | (k', v') :: rest, k, v, p, h => by
    simp only [mapInsert] at h
    by_cases hk : k = k'
    · subst hk
      simp at h
      rcases h with h | h
      · exact Or.inr h
      · exact Or.inl (List.mem_cons_of_mem _ h)
    · simp only [hk, if_false] at h
      by_cases hlt : bytesLt k k'
      · simp [hlt] at h
        rcases h with h | h | h
        · exact Or.inr h
        · exact Or.inl (by simp [h])
        · exact Or.inl (List.mem_cons_of_mem _ h)
      · simp [hlt] at h
        rcases h with h | h
        · exact Or.inl (by simp [h])
        · rcases mem_mapInsert h with h1 | h1
          · exact Or.inl (List.mem_cons_of_mem _ h1)
          · exact Or.inr h1

theorem keysSorted_mapInsert {α : Type} (k : List Nat) (v : α) :
    ∀ {l : List (List Nat × α)}, keysSorted l → keysSorted (mapInsert k v l)
  | [], _ => by simp [mapInsert, keysSorted]
  | (k', v') :: rest, h => by
    simp only [keysSorted, List.pairwise_cons] at h
    obtain ⟨hhead, htail⟩ := h
    simp only [mapInsert]
    by_cases hk : k = k'
    · subst hk
      rw [if_pos rfl]
      simp only [keysSorted, List.pairwise_cons]
      exact ⟨hhead, htail⟩
    · simp only [hk, if_false]
      by_cases hlt : bytesLt k k' = true
      · simp only [hlt, if_true, keysSorted, List.pairwise_cons]
        refine ⟨?_, hhead, htail⟩
        intro q hq
        rcases List.mem_cons.mp hq with h1 | h1
        · subst h1; exact hlt
        · exact bytesLt_trans hlt (hhead q h1)
      · simp only [hlt, if_false, keysSorted, List.pairwise_cons]
        constructor
        · intro q hq
          rcases mem_mapInsert hq with h1 | h1
          · exact hhead q h1
          · subst h1
            rcases bytesLt_total hk with h2 | h2
            · exact absurd h2 hlt
            · exact h2
        · exact keysSorted_mapInsert k v htail

/-! ## memtable.rs -/

theorem specSize_nil : specSize [] = 0 := rfl

theorem specSize_cons (e : List Nat × Value) (l : List (List Nat × Value)) :
    specSize (e :: l) = entrySize e + specSize l := by
  simp [specSize]

theorem entrySize_le_specSize {l : List (List Nat × Value)} {e : List Nat × Value}
    (h : e ∈ l) : entrySize e ≤ specSize l := by
  induction l with
  | nil => simp at h
  | cons f rest ih =>
    rcases List.mem_cons.mp h with h1 | h1
    · subst h1; rw [specSize_cons]; omega
    · have := ih h1; rw [specSize_cons]; omega

theorem specSize_mapInsert_of_none {l : List (List Nat × Value)} {k : List Nat}
    (hnone : mapGet l k = none) (v : Value) :
    specSize (mapInsert k v l) = specSize l + entrySize (k, v) := by
  induction l with
  | nil => simp [mapInsert, specSize_cons, specSize_nil]
  | cons f rest ih =>
    obtain ⟨k', v'⟩ := f
    by_cases hk : k = k'
    · rw [mapGet_cons_eq v' rest hk] at hnone
      exact absurd hnone (by simp)
    · rw [mapGet_cons_ne v' rest hk] at hnone
      by_cases hlt : bytesLt k k' = true
      · rw [mapInsert_cons_lt v v' rest hk hlt, specSize_cons, specSize_cons]
        omega
      · rw [mapInsert_cons_gt v v' rest hk hlt, specSize_cons, specSize_cons, ih hnone]
        omega

theorem specSize_mapInsert_of_some {l : List (List Nat × Value)} {k : List Nat}
    {old : Value} (hsort : keysSorted l) (hget : mapGet l k = some old) (v : Value) :
    specSize (mapInsert k v l) + entrySize (k, old) = specSize l + entrySize (k, v) := by
  induction l with
  | nil => simp [mapGet] at hget
  | cons f rest ih =>
    obtain ⟨k', v'⟩ := f
    simp only [keysSorted, List.pairwise_cons] at hsort
    obtain ⟨hhead, htail⟩ := hsort
    by_cases hk : k = k'
    · rw [mapGet_cons_eq v' rest hk] at hget
      injection hget with hv
      subst hv
      rw [mapInsert_cons_eq v v' rest hk, specSize_cons, specSize_cons]
      subst hk
      omega
    · rw [mapGet_cons_ne v' rest hk] at hget
      have hmem : (k, old) ∈ rest := mapGet_mem hget
      have hk'k : bytesLt k' k = true := hhead (k, old) hmem
      have hnotlt : ¬bytesLt k k' = true := by
        rw [bytesLt_asymm hk'k]; simp
      rw [mapInsert_cons_gt v v' rest hk hnotlt, specSize_cons, specSize_cons]
      have := ih htail hget
      omega

theorem memtableInv_new : MemtableInv Memtable.new := by
  constructor
  · simp [Memtable.new, keysSorted]
  · rfl

theorem put_eq_of_none {m : Memtable} {key : List Nat} (hget : mapGet m.data key = none)
    (value : List Nat) :
    m.put key value =
      ⟨mapInsert key (Value.Some value) m.data, m.size_bytes + key.length + value.length⟩ := by
  unfold Memtable.put
  rw [hget]

theorem put_eq_of_some {m : Memtable} {key : List Nat} {old : List Nat}
    (hget : mapGet m.data key = some (Value.Some old)) (value : List Nat) :
    m.put key value =
      ⟨mapInsert key (Value.Some value) m.data, m.size_bytes - old.length + value.length⟩ := by
  unfold Memtable.put
  rw [hget]

theorem put_eq_of_tombstone {m : Memtable} {key : List Nat}
    (hget : mapGet m.data key = some Value.Tombstone) (value : List Nat) :
    m.put key value =
      ⟨mapInsert key (Value.Some value) m.data, m.size_bytes + value.length⟩ := by
  unfold Memtable.put
  rw [hget]

theorem delete_eq_of_none {m : Memtable} {key : List Nat} (hget : mapGet m.data key = none) :
    m.delete key = ⟨mapInsert key Value.Tombstone m.data, m.size_bytes + key.length⟩ := by
  unfold Memtable.delete
  rw [hget]

theorem delete_eq_of_some {m : Memtable} {key : List Nat} {old : List Nat}
    (hget : mapGet m.data key = some (Value.Some old)) :
    m.delete key = ⟨mapInsert key Value.Tombstone m.data, m.size_bytes - old.length⟩ := by
  unfold Memtable.delete
  rw [hget]

theorem delete_eq_of_tombstone {m : Memtable} {key : List Nat}
    (hget : mapGet m.data key = some Value.Tombstone) :
    m.delete key = m := by
  unfold Memtable.delete
  rw [hget]

theorem memtableInv_put {m : Memtable} (h : MemtableInv m) (key value : List Nat) :
    MemtableInv (m.put key value) := by
  obtain ⟨hsort, hsize⟩ := h
  cases hget : mapGet m.data key with
  | none =>
    rw [put_eq_of_none hget]
    refine ⟨keysSorted_mapInsert _ _ hsort, ?_⟩
    dsimp only
    simp only [specSize_mapInsert_of_none hget]
    simp [entrySize, payloadLen]
    omega
  | some old =>
    cases old with
    | Some oldv =>
      rw [put_eq_of_some hget]
      refine ⟨keysSorted_mapInsert _ _ hsort, ?_⟩
      dsimp only
      have heq := specSize_mapInsert_of_some hsort hget (Value.Some value)
      have hle : entrySize (key, Value.Some oldv) ≤ specSize m.data :=
        entrySize_le_specSize (mapGet_mem hget)
      simp only [entrySize, payloadLen] at heq hle
      omega
    | Tombstone =>
      rw [put_eq_of_tombstone hget]
      refine ⟨keysSorted_mapInsert _ _ hsort, ?_⟩
      dsimp only
      have heq := specSize_mapInsert_of_some hsort hget (Value.Some value)
      simp only [entrySize, payloadLen] at heq
      omega

theorem memtableInv_delete {m : Memtable} (h : MemtableInv m) (key : List Nat) :
    MemtableInv (m.delete key) := by
  obtain ⟨hsort, hsize⟩ := h
  cases hget : mapGet m.data key with
  | none =>
    rw [delete_eq_of_none hget]
    refine ⟨keysSorted_mapInsert _ _ hsort, ?_⟩
    dsimp only
    simp only [specSize_mapInsert_of_none hget]
    simp [entrySize, payloadLen]
    omega
  | some old =>
    cases old with
    | Some oldv =>
      rw [delete_eq_of_some hget]
      refine ⟨keysSorted_mapInsert _ _ hsort, ?_⟩
      dsimp only
      have heq := specSize_mapInsert_of_some hsort hget Value.Tombstone
      have hle : entrySize (key, Value.Some oldv) ≤ specSize m.data :=
        entrySize_le_specSize (mapGet_mem hget)
      simp only [entrySize, payloadLen] at heq hle
      omega
    | Tombstone =>
      rw [delete_eq_of_tombstone hget]
      exact ⟨hsort, hsize⟩

theorem memtableInv_applyOps {m : Memtable} (h : MemtableInv m) :
    ∀ ops : List MemOp, MemtableInv (applyOps m ops)
  | [] => h
  | op :: rest => by
    have h1 : MemtableInv (applyOp m op) := by
      cases op with
      | put k v => exact memtableInv_put h k v
      | del k => exact memtableInv_delete h k
    exact memtableInv_applyOps h1 rest

/-! ### Builder closed forms -/

theorem record_length (e : List Nat × Value) :
    (record e).length = 4 + e.1.length + 4 + payloadLen e.2 + 1 := by
  obtain ⟨k, v⟩ := e
  cases v <;> simp [record, payloadLen] <;> omega

theorem record_length_pos (e : List Nat × Value) : 0 < (record e).length := by
  rw [record_length]; omega

theorem add_eq (b : SSTableBuilder) (e : List Nat × Value) :
    b.add e.1 e.2 =
      ⟨b.buf ++ record e, b.index ++ [(e.1, b.current_offset)],
        b.current_offset + (record e).length, b.num_entries + 1⟩ := by
  obtain ⟨k, v⟩ := e
  cases v with
  | Some val =>
    simp [SSTableBuilder.add, record, record_length, payloadLen]
    omega
  | Tombstone =>
    simp [SSTableBuilder.add, record, record_length, payloadLen]
    omega

theorem dataBlock_nil : dataBlock [] = [] := rfl

theorem dataBlock_cons (e : List Nat × Value) (es : List (List Nat × Value)) :
    dataBlock (e :: es) = record e ++ dataBlock es := by
  simp [dataBlock]

theorem buildFold : ∀ (es : List (List Nat × Value)) (b : SSTableBuilder),
    es.foldl (fun (b : SSTableBuilder) e => b.add e.1 e.2) b =
      ⟨b.buf ++ dataBlock es, b.index ++ offsetsFrom b.current_offset es,
        b.current_offset + (dataBlock es).length, b.num_entries + es.length⟩
  | [], b => by simp [dataBlock_nil, offsetsFrom]
  | e :: es, b => by
    rw [List.foldl_cons, add_eq, buildFold es]
    simp [dataBlock_cons, offsetsFrom, List.length_append]
    omega

theorem buildFile_eq (es : List (List Nat × Value)) :
    buildFile es = dataBlock es ++ (indexBlock es ++ footerBytes es) := by
  unfold buildFile
  rw [buildFold]
  simp only [SSTableBuilder.finish]
  rw [show (fun (e : List Nat × Nat) => leBytes e.1.length 4 ++ e.1 ++ leBytes e.2 8)
        = indexEntry from rfl]
  simp only [footerBytes, indexBlock, List.nil_append, Nat.zero_add]
  simp [List.append_assoc]

theorem footerBytes_length (es : List (List Nat × Value)) :
    (footerBytes es).length = 32 := by
  simp [footerBytes]

/-! ### Reading slices out of a file -/

theorem readBytes_at {file A C B : List Nat} {off n : Nat}
    (hf : file = A ++ (C ++ B)) (ho : off = A.length) (hn : n = C.length) :
    readBytes file off n = some C := by
  subst hf; subst ho; subst hn
  unfold readBytes
  rw [if_pos (by simp [List.length_append])]
  rw [List.drop_left, List.take_left]

theorem offsetsFrom_nil (n : Nat) : offsetsFrom n [] = [] := rfl

theorem offsetsFrom_cons (n : Nat) (e : List Nat × Value) (es : List (List Nat × Value)) :
    offsetsFrom n (e :: es) = (e.1, n) :: offsetsFrom (n + (record e).length) es := rfl

theorem mem_offsetsFrom : ∀ {es : List (List Nat × Value)} {n : Nat} {p : List Nat × Nat},
    p ∈ offsetsFrom n es → ∃ v, (p.1, v) ∈ es
  | [], n, p, h => by simp [offsetsFrom] at h
  | e :: es, n, p, h => by
    rw [offsetsFrom_cons] at h
    rcases List.mem_cons.mp h with h1 | h1
    · exact ⟨e.2, by simp [h1]⟩
    · obtain ⟨v, hv⟩ := mem_offsetsFrom h1
      exact ⟨v, List.mem_cons_of_mem _ hv⟩

theorem offsetsFrom_snd_lt : ∀ {es : List (List Nat × Value)} {n : Nat} {p : List Nat × Nat},
    p ∈ offsetsFrom n es → n ≤ p.2 ∧ p.2 < n + (dataBlock es).length
  | [], n, p, h => by simp [offsetsFrom] at h
  | e :: es, n, p, h => by
    rw [offsetsFrom_cons] at h
    rw [dataBlock_cons, List.length_append]
    rcases List.mem_cons.mp h with h1 | h1
    · subst h1
      dsimp only
      have := record_length_pos e
      omega
    · have := offsetsFrom_snd_lt h1
      omega

theorem keysSorted_offsetsFrom : ∀ {es : List (List Nat × Value)} {n : Nat},
    keysSorted es → keysSorted (offsetsFrom n es)
  | [], n, _ => by simp [offsetsFrom, keysSorted]
  | e :: es, n, h => by
    simp only [keysSorted, List.pairwise_cons] at h
    obtain ⟨hhead, htail⟩ := h
    rw [offsetsFrom_cons]
    simp only [keysSorted, List.pairwise_cons]
    constructor
    · intro q hq
      obtain ⟨v, hv⟩ := mem_offsetsFrom hq
      exact hhead (q.1, v) hv
    · exact keysSorted_offsetsFrom htail

/-! ### Footer field extraction -/

theorem pow_256_4 : (256 : Nat) ^ 4 = 2 ^ 32 := by norm_num

theorem pow_256_8 : (256 : Nat) ^ 8 = 2 ^ 64 := by norm_num

theorem MAGIC_lt : MAGIC_NUMBER < 2 ^ 64 := by norm_num [MAGIC_NUMBER]

theorem footerBytes_take8 (es : List (List Nat × Value)) :
    (footerBytes es).take 8 = leBytes (dataBlock es).length 8 := by
  unfold footerBytes
  rw [List.append_assoc, List.append_assoc, List.append_assoc]
  exact List.take_left' (leBytes_length _ _)

theorem footerBytes_drop8_take4 (es : List (List Nat × Value)) :
    ((footerBytes es).drop 8).take 4 = leBytes (indexBlock es).length 4 := by
  unfold footerBytes
  rw [List.append_assoc, List.append_assoc, List.append_assoc]
  rw [List.drop_left' (leBytes_length _ _)]
  exact List.take_left' (leBytes_length _ _)

theorem footerBytes_drop12_take4 (es : List (List Nat × Value)) :
    ((footerBytes es).drop 12).take 4 = leBytes es.length 4 := by
  unfold footerBytes
  rw [show leBytes (dataBlock es).length 8 ++ leBytes (indexBlock es).length 4 ++
        leBytes es.length 4 ++ leBytes MAGIC_NUMBER 8 ++ leBytes 0 8
      = (leBytes (dataBlock es).length 8 ++ leBytes (indexBlock es).length 4) ++
        (leBytes es.length 4 ++ (leBytes MAGIC_NUMBER 8 ++ leBytes 0 8)) from by
    simp [List.append_assoc]]
  rw [List.drop_left' (by simp)]
  exact List.take_left' (leBytes_length _ _)

theorem footerBytes_drop16_take8 (es : List (List Nat × Value)) :
    ((footerBytes es).drop 16).take 8 = leBytes MAGIC_NUMBER 8 := by
  unfold footerBytes
  rw [show leBytes (dataBlock es).length 8 ++ leBytes (indexBlock es).length 4 ++
        leBytes es.length 4 ++ leBytes MAGIC_NUMBER 8 ++ leBytes 0 8
      = (leBytes (dataBlock es).length 8 ++ leBytes (indexBlock es).length 4 ++
          leBytes es.length 4) ++ (leBytes MAGIC_NUMBER 8 ++ leBytes 0 8) from by
    simp [List.append_assoc]]
  rw [List.drop_left' (by simp)]
  exact List.take_left' (leBytes_length _ _)

/-! ### Parsing the index block of a built file -/

theorem parseIndexRec_nil (acc : List (List Nat × Nat)) :
    parseIndexRec [] acc = some acc := rfl

theorem parseIndexLoop_step (fuel : Nat) (k : List Nat) (off : Nat) (R : List Nat)
    (acc : List (List Nat × Nat)) (hklen : k.length < 2 ^ 32) (hoff : off < 2 ^ 64) :
    parseIndexLoop (fuel + 1) (indexEntry (k, off) ++ R) acc
      = parseIndexLoop fuel R (mapInsert k off acc) := by
  have hshape : indexEntry (k, off) ++ R = leBytes k.length 4 ++ (k ++ (leBytes off 8 ++ R)) := by
    simp [indexEntry, List.append_assoc]
  have hlen : (indexEntry (k, off) ++ R).length = 4 + k.length + 8 + R.length := by
    simp [indexEntry]
    omega
  have htake4 : (indexEntry (k, off) ++ R).take 4 = leBytes k.length 4 := by
    rw [hshape]
    exact List.take_left' (leBytes_length _ _)
  have hdrop4 : (indexEntry (k, off) ++ R).drop 4 = k ++ (leBytes off 8 ++ R) := by
    rw [hshape]
    exact List.drop_left' (leBytes_length _ _)
  rw [parseIndexLoop.eq_def]
  rw [if_neg (by omega : ¬(indexEntry (k, off) ++ R).length = 0)]
  dsimp only
  rw [if_pos (by omega : 4 ≤ (indexEntry (k, off) ++ R).length)]
  simp only [htake4, hdrop4, leNat_leBytes k.length 4 (by rw [pow_256_4]; exact hklen)]
  rw [if_pos (by simp : k.length ≤ (k ++ (leBytes off 8 ++ R)).length)]
  rw [List.take_left, List.drop_left]
  rw [if_pos (by simp : 8 ≤ (leBytes off 8 ++ R).length)]
  rw [List.take_left' (leBytes_length _ _), List.drop_left' (leBytes_length _ _)]
  rw [leNat_leBytes off 8 (by rw [pow_256_8]; exact hoff)]

theorem parseIndexLoop_flatten :
    ∀ (ps : List (List Nat × Nat)) (acc : List (List Nat × Nat)) (fuel : Nat),
    (∀ p ∈ ps, p.1.length < 2 ^ 32 ∧ p.2 < 2 ^ 64) →
    ((ps.map indexEntry).flatten).length ≤ fuel →
    parseIndexLoop fuel ((ps.map indexEntry).flatten) acc
      = some (ps.foldl (fun m p => mapInsert p.1 p.2 m) acc)
  | [], acc, fuel, _, _ => by
    rw [parseIndexLoop.eq_def]
    simp
  | p :: ps, acc, fuel, h, hfuel => by
    have hp := h p (List.mem_cons_self p ps)
    obtain ⟨k, off⟩ := p
    rw [List.map_cons, List.flatten_cons] at hfuel ⊢
    have hlen12 : 12 + k.length ≤ (indexEntry (k, off)).length := by
      simp [indexEntry]
      omega
    have hfuelpos : 1 ≤ fuel := by
      have := List.length_append (indexEntry (k, off)) ((ps.map indexEntry).flatten)
      omega
    obtain ⟨fuel', rfl⟩ : ∃ fuel', fuel = fuel' + 1 := ⟨fuel - 1, by omega⟩
    rw [parseIndexLoop_step fuel' k off _ acc hp.1 hp.2]
    rw [List.foldl_cons]
    refine parseIndexLoop_flatten ps _ fuel' (fun q hq => h q (List.mem_cons_of_mem _ hq)) ?_
    have := List.length_append (indexEntry (k, off)) ((ps.map indexEntry).flatten)
    omega

theorem parseIndexRec_flatten (ps : List (List Nat × Nat)) (acc : List (List Nat × Nat))
    (h : ∀ p ∈ ps, p.1.length < 2 ^ 32 ∧ p.2 < 2 ^ 64) :
    parseIndexRec ((ps.map indexEntry).flatten) acc
      = some (ps.foldl (fun m p => mapInsert p.1 p.2 m) acc) :=
  parseIndexLoop_flatten ps acc _ h (Nat.le_refl _)

/-! ### Folding a sorted sequence of inserts -/

theorem mapInsert_append_of_gt {α : Type} (k : List Nat) (v : α) :
    ∀ {l : List (List Nat × α)}, (∀ q ∈ l, bytesLt q.1 k = true) →
    mapInsert k v l = l ++ [(k, v)]
  | [], _ => rfl
  | (k', v') :: rest, h => by
    have hq : bytesLt k' k = true := h (k', v') (List.mem_cons_self _ _)
    have hne : k ≠ k' := by
      intro hc
      subst hc
      rw [bytesLt_irrefl] at hq
      exact Bool.false_ne_true hq
    have hnlt : ¬bytesLt k k' = true := by
      rw [bytesLt_asymm hq]
      simp
    rw [mapInsert_cons_gt v v' rest hne hnlt]
    rw [mapInsert_append_of_gt k v (fun q hqq => h q (List.mem_cons_of_mem _ hqq))]
    simp

theorem foldl_mapInsert_sorted {α : Type} :
    ∀ (ps : List (List Nat × α)) (acc : List (List Nat × α)),
    keysSorted (acc ++ ps) →
    ps.foldl (fun m p => mapInsert p.1 p.2 m) acc = acc ++ ps
  | [], acc, _ => by simp
  | p :: ps, acc, h => by
    rw [List.foldl_cons]
    have hgt : ∀ q ∈ acc, bytesLt q.1 p.1 = true := by
      intro q hq
      exact (List.pairwise_append.mp h).2.2 q hq p (List.mem_cons_self _ _)
    rw [mapInsert_append_of_gt p.1 p.2 hgt]
    have h2 : keysSorted ((acc ++ [p]) ++ ps) := by
      simpa [List.append_assoc] using h
    rw [foldl_mapInsert_sorted ps (acc ++ [p]) h2]
    simp

/-! ### Opening a built file succeeds and yields the right reader -/

theorem buildFile_length (es : List (List Nat × Value)) :
    (buildFile es).length = (dataBlock es).length + (indexBlock es).length + 32 := by
  rw [buildFile_eq]
  simp [footerBytes_length]
  omega

theorem buildFile_footer (es : List (List Nat × Value)) :
    (buildFile es).drop ((buildFile es).length - FOOTER_SIZE) = footerBytes es := by
  rw [buildFile_length, buildFile_eq]
  rw [show dataBlock es ++ (indexBlock es ++ footerBytes es)
      = (dataBlock es ++ indexBlock es) ++ footerBytes es from by simp [List.append_assoc]]
  exact List.drop_left' (by simp [FOOTER_SIZE])

theorem sstOpen_buildFile (num : Nat) (es : List (List Nat × Value)) (hwf : entriesWF es) :
    SSTable.open num (buildFile es) = OpenResult.ok (builtReader num es) := by
  obtain ⟨hsort, hbounds, hD, hX, hN⟩ := hwf
  unfold SSTable.open
  rw [if_neg (by rw [buildFile_length]; unfold FOOTER_SIZE; omega)]
  simp only [buildFile_footer, footerBytes_take8, footerBytes_drop8_take4,
    footerBytes_drop12_take4, footerBytes_drop16_take8,
    leNat_leBytes (dataBlock es).length 8 (by rw [pow_256_8]; exact hD),
    leNat_leBytes (indexBlock es).length 4 (by rw [pow_256_4]; exact hX),
    leNat_leBytes es.length 4 (by rw [pow_256_4]; exact hN),
    leNat_leBytes MAGIC_NUMBER 8 (by rw [pow_256_8]; exact MAGIC_lt)]
  rw [if_neg (by simp)]
  rw [readBytes_at (buildFile_eq es) rfl rfl]
  dsimp only
  have hps : ∀ p ∈ offsetsFrom 0 es, p.1.length < 2 ^ 32 ∧ p.2 < 2 ^ 64 := by
    intro p hp
    constructor
    · obtain ⟨v, hv⟩ := mem_offsetsFrom hp
      exact (hbounds (p.1, v) hv).1
    · have := offsetsFrom_snd_lt hp
      omega
  rw [show indexBlock es = ((offsetsFrom 0 es).map indexEntry).flatten from rfl]
  rw [parseIndexRec_flatten (offsetsFrom 0 es) [] hps]
  rw [foldl_mapInsert_sorted (offsetsFrom 0 es) []
    (by simpa using keysSorted_offsetsFrom hsort)]
  rfl

/-! ### Reading one record back (SSTable::get on a built file) -/

theorem mapGet_offsetsFrom_none : ∀ {es : List (List Nat × Value)} {k : List Nat} (n : Nat),
    mapGet es k = none → mapGet (offsetsFrom n es) k = none
  | [], k, n, _ => rfl
  | e :: es, k, n, h => by
    by_cases hk : k = e.1
    · rw [show (e : List Nat × Value) = (e.1, e.2) from rfl] at h
      rw [mapGet_cons_eq e.2 es hk] at h
      exact absurd h (by simp)
    · rw [show (e : List Nat × Value) = (e.1, e.2) from rfl] at h
      rw [mapGet_cons_ne e.2 es hk] at h
      rw [offsetsFrom_cons, mapGet_cons_ne _ _ hk]
      exact mapGet_offsetsFrom_none _ h

theorem mapGet_offsetsFrom_some : ∀ {es : List (List Nat × Value)} {k : List Nat} {v : Value}
    (n : Nat), mapGet es k = some v →
    ∃ A B, dataBlock es = A ++ (record (k, v) ++ B) ∧
      mapGet (offsetsFrom n es) k = some (n + A.length)
  | [], k, v, n, h => by simp [mapGet] at h
  | e :: es, k, v, n, h => by
    by_cases hk : k = e.1
    · rw [show (e : List Nat × Value) = (e.1, e.2) from rfl] at h
      rw [mapGet_cons_eq e.2 es hk] at h
      injection h with hv
      refine ⟨[], dataBlock es, ?_, ?_⟩
      · rw [dataBlock_cons]
        subst hk; subst hv
        simp
      · rw [offsetsFrom_cons, mapGet_cons_eq _ _ hk]
        simp
    · rw [show (e : List Nat × Value) = (e.1, e.2) from rfl] at h
      rw [mapGet_cons_ne e.2 es hk] at h
      obtain ⟨A, B, hdata, hidx⟩ := mapGet_offsetsFrom_some (n + (record e).length) h
      refine ⟨record e ++ A, B, ?_, ?_⟩
      · rw [dataBlock_cons, hdata]
        simp [List.append_assoc]
      · rw [offsetsFrom_cons, mapGet_cons_ne _ _ hk, hidx]
        simp [List.length_append]
        omega

theorem sstGet_at_record (s : SSTable) (A B k : List Nat) (v : Value)
    (hfile : s.file = A ++ (record (k, v) ++ B))
    (hidx : mapGet s.index k = some A.length)
    (hklen : k.length < 2 ^ 32) (hvlen : payloadLen v < 2 ^ 32) :
    s.get k = Except.ok (some v) := by
  cases v with
  | Some val =>
    have hvlen' : val.length < 2 ^ 32 := by simpa [payloadLen] using hvlen
    have hf1 : s.file =
        A ++ (leBytes k.length 4 ++ (k ++ (leBytes val.length 4 ++ (val ++ ([0] ++ B))))) := by
      rw [hfile]; simp [record, List.append_assoc]
    have hf2 : s.file =
        (A ++ leBytes k.length 4) ++ (k ++ (leBytes val.length 4 ++ (val ++ ([0] ++ B)))) := by
      rw [hf1]; simp [List.append_assoc]
    have hf3 : s.file =
        (A ++ leBytes k.length 4 ++ k) ++ (leBytes val.length 4 ++ (val ++ ([0] ++ B))) := by
      rw [hf1]; simp [List.append_assoc]
    have hf4 : s.file =
        (A ++ leBytes k.length 4 ++ k ++ leBytes val.length 4) ++ (val ++ ([0] ++ B)) := by
      rw [hf1]; simp [List.append_assoc]
    have hf5 : s.file =
        (A ++ leBytes k.length 4 ++ k ++ leBytes val.length 4 ++ val) ++ ([0] ++ B) := by
      rw [hf1]; simp [List.append_assoc]
    unfold SSTable.get
    rw [hidx]
    dsimp only
    rw [readBytes_at hf1 rfl (leBytes_length k.length 4).symm]
    dsimp only
    rw [leNat_leBytes k.length 4 (by rw [pow_256_4]; exact hklen)]
    rw [readBytes_at hf2
      (show A.length + 4 = (A ++ leBytes k.length 4).length from by simp_arith) rfl]
    dsimp only
    rw [if_neg (fun hc => hc rfl)]
    rw [readBytes_at hf3
      (show A.length + 4 + k.length = (A ++ leBytes k.length 4 ++ k).length from by simp_arith)
      (leBytes_length val.length 4).symm]
    dsimp only
    rw [leNat_leBytes val.length 4 (by rw [pow_256_4]; exact hvlen')]
    by_cases hval : 0 < val.length
    · rw [if_pos hval]
      rw [readBytes_at hf4
        (show A.length + 4 + k.length + 4
            = (A ++ leBytes k.length 4 ++ k ++ leBytes val.length 4).length from by simp_arith) rfl]
      dsimp only
      rw [readBytes_at hf5
        (show A.length + 4 + k.length + 4 + val.length
            = (A ++ leBytes k.length 4 ++ k ++ leBytes val.length 4 ++ val).length from by simp_arith)
        (show (1 : Nat) = ([0] : List Nat).length from rfl)]
      dsimp only
      rw [if_neg (by simp)]
    · have hv0 : val = [] := List.length_eq_zero.mp (by omega)
      subst hv0
      rw [if_neg hval]
      dsimp only
      rw [readBytes_at hf5
        (show A.length + 4 + k.length + 4 + List.length [] = (A ++ leBytes k.length 4 ++ k ++
            leBytes (List.length ([] : List Nat)) 4 ++ []).length from by simp_arith)
        (show (1 : Nat) = ([0] : List Nat).length from rfl)]
      dsimp only
      rw [if_neg (by simp)]
  | Tombstone =>
    have hf1 : s.file = A ++ (leBytes k.length 4 ++ (k ++ (leBytes 0 4 ++ ([1] ++ B)))) := by
      rw [hfile]; simp [record, List.append_assoc]
    have hf2 : s.file = (A ++ leBytes k.length 4) ++ (k ++ (leBytes 0 4 ++ ([1] ++ B))) := by
      rw [hf1]; simp [List.append_assoc]
    have hf3 : s.file = (A ++ leBytes k.length 4 ++ k) ++ (leBytes 0 4 ++ ([1] ++ B)) := by
      rw [hf1]; simp [List.append_assoc]
    have hf5 : s.file = (A ++ leBytes k.length 4 ++ k ++ leBytes 0 4) ++ ([1] ++ B) := by
      rw [hf1]; simp [List.append_assoc]
    unfold SSTable.get
    rw [hidx]
    dsimp only
    rw [readBytes_at hf1 rfl (leBytes_length k.length 4).symm]
    dsimp only
    rw [leNat_leBytes k.length 4 (by rw [pow_256_4]; exact hklen)]
    rw [readBytes_at hf2
      (show A.length + 4 = (A ++ leBytes k.length 4).length from by simp_arith) rfl]
    dsimp only
    rw [if_neg (fun hc => hc rfl)]
    rw [readBytes_at hf3
      (show A.length + 4 + k.length = (A ++ leBytes k.length 4 ++ k).length from by simp_arith)
      (leBytes_length 0 4).symm]
    dsimp only
    rw [leNat_leBytes 0 4 (by norm_num)]
    rw [if_neg (by omega)]
    dsimp only
    rw [readBytes_at hf5
      (show A.length + 4 + k.length + 4 + 0
          = (A ++ leBytes k.length 4 ++ k ++ leBytes 0 4).length from by simp_arith)
      (show (1 : Nat) = ([1] : List Nat).length from rfl)]
    dsimp only
    rw [if_pos (by simp)]

theorem sstGet_built (num : Nat) (es : List (List Nat × Value)) (hwf : entriesWF es)
    (k : List Nat) : (builtReader num es).get k = Except.ok (mapGet es k) := by
  obtain ⟨hsort, hbounds, hD, hX, hN⟩ := hwf
  cases hget : mapGet es k with
  | none =>
    have hidx : mapGet (offsetsFrom 0 es) k = none := mapGet_offsetsFrom_none 0 hget
    unfold SSTable.get
    rw [show (builtReader num es).index = offsetsFrom 0 es from rfl, hidx]
  | some v =>
    obtain ⟨A, B, hdata, hidx⟩ := mapGet_offsetsFrom_some 0 hget
    have hmem := mapGet_mem hget
    have hbk := hbounds (k, v) hmem
    refine sstGet_at_record _ A (B ++ (indexBlock es ++ footerBytes es)) k v ?_ ?_ hbk.1 hbk.2
    · rw [show (builtReader num es).file = buildFile es from rfl, buildFile_eq, hdata]
      simp [List.append_assoc]
    · rw [show (builtReader num es).index = offsetsFrom 0 es from rfl, hidx]
      simp

/-! ### The read-path scan -/

theorem scanL0_cons_stored (sst : SSTable) (rest : List SSTable) (key v : List Nat)
    (h : sst.get key = Except.ok (some (Value.Some v))) :
    scanL0 (sst :: rest) key = Except.ok (some v) := by
  unfold scanL0
  rw [h]

theorem scanL0_cons_tombstone (sst : SSTable) (rest : List SSTable) (key : List Nat)
    (h : sst.get key = Except.ok (some Value.Tombstone)) :
    scanL0 (sst :: rest) key = Except.ok none := by
  unfold scanL0
  rw [h]

theorem scanL0_cons_none (sst : SSTable) (rest : List SSTable) (key : List Nat)
    (h : sst.get key = Except.ok none) :
    scanL0 (sst :: rest) key = scanL0 rest key := by
  rw [scanL0, h]

theorem scanL0_append_none : ∀ (pre : List SSTable) (rest : List SSTable) (key : List Nat),
    (∀ s ∈ pre, s.get key = Except.ok none) →
    scanL0 (pre ++ rest) key = scanL0 rest key
  | [], rest, key, _ => rfl
  | s :: pre, rest, key, h => by
    rw [List.cons_append, scanL0_cons_none s _ key (h s (List.mem_cons_self _ _))]
    exact scanL0_append_none pre rest key (fun q hq => h q (List.mem_cons_of_mem _ hq))

theorem scanL0_all_none : ∀ (l : List SSTable) (key : List Nat),
    (∀ s ∈ l, s.get key = Except.ok none) → scanL0 l key = Except.ok none
  | [], _, _ => rfl
  | s :: l, key, h => by
    rw [scanL0_cons_none s l key (h s (List.mem_cons_self _ _))]
    exact scanL0_all_none l key (fun q hq => h q (List.mem_cons_of_mem _ hq))

theorem scanL0_layers : ∀ (pairs : List (SSTable × List (List Nat × Value))) (key : List Nat),
    (∀ p ∈ pairs, p.1.get key = Except.ok (mapGet p.2 key)) →
    scanL0 (pairs.map Prod.fst) key = Except.ok (layeredLookup (pairs.map Prod.snd) key)
  | [], key, _ => rfl
  | p :: pairs, key, h => by
    have hp := h p (List.mem_cons_self _ _)
    rw [List.map_cons, List.map_cons]
    cases hget : mapGet p.2 key with
    | none =>
      rw [scanL0_cons_none _ _ _ (by rw [hp, hget])]
      rw [show layeredLookup (p.2 :: List.map Prod.snd pairs) key
          = layeredLookup (List.map Prod.snd pairs) key from by
        rw [layeredLookup, hget]]
      exact scanL0_layers pairs key (fun q hq => h q (List.mem_cons_of_mem _ hq))
    | some v =>
      cases v with
      | Some w =>
        rw [scanL0_cons_stored _ _ _ w (by rw [hp, hget])]
        unfold layeredLookup
        rw [hget]
      | Tombstone =>
        rw [scanL0_cons_tombstone _ _ _ (by rw [hp, hget])]
        unfold layeredLookup
        rw [hget]

/-! ### Insert-then-get -/

theorem mapGet_mapInsert_self {α : Type} (k : List Nat) (v : α) :
    ∀ (l : List (List Nat × α)), mapGet (mapInsert k v l) k = some v
  | [] => by simp [mapInsert, mapGet]
  | (k', v') :: rest => by
    by_cases hk : k = k'
    · rw [mapInsert_cons_eq v v' rest hk, mapGet_cons_eq _ _ rfl]
    · by_cases hlt : bytesLt k k' = true
      · rw [mapInsert_cons_lt v v' rest hk hlt, mapGet_cons_eq _ _ rfl]
      · rw [mapInsert_cons_gt v v' rest hk hlt, mapGet_cons_ne _ _ hk]
        exact mapGet_mapInsert_self k v rest

/-! ### Memtable non-emptiness after a write -/

theorem is_empty_iff (m : Memtable) : m.is_empty = true ↔ m.data = [] := by
  unfold Memtable.is_empty
  exact List.isEmpty_iff

theorem mapGet_some_ne_nil {α : Type} {l : List (List Nat × α)} {k : List Nat} {v : α}
    (h : mapGet l k = some v) : l ≠ [] := by
  intro hc
  subst hc
  simp [mapGet] at h

theorem put_data_ne_nil (m : Memtable) (key value : List Nat) :
    (m.put key value).data ≠ [] := by
  cases hget : mapGet m.data key with
  | none => rw [put_eq_of_none hget]; exact mapInsert_ne_nil _ _ _
  | some old =>
    cases old with
    | Some oldv => rw [put_eq_of_some hget]; exact mapInsert_ne_nil _ _ _
    | Tombstone => rw [put_eq_of_tombstone hget]; exact mapInsert_ne_nil _ _ _

theorem delete_data_ne_nil (m : Memtable) (key : List Nat) :
    (m.delete key).data ≠ [] := by
  cases hget : mapGet m.data key with
  | none => rw [delete_eq_of_none hget]; exact mapInsert_ne_nil _ _ _
  | some old =>
    cases old with
    | Some oldv => rw [delete_eq_of_some hget]; exact mapInsert_ne_nil _ _ _
    | Tombstone => rw [delete_eq_of_tombstone hget]; exact mapGet_some_ne_nil hget

/-! ### Unfolding the flush -/

theorem flush_empty_eq (t : LSMTree) (h : t.memtable.data = []) (ioFail : Bool)
    (sb : List Nat) : t.flush_memtable ioFail sb = (t, none) := by
  unfold LSMTree.flush_memtable
  rw [if_pos ((is_empty_iff t.memtable).mpr h)]

theorem flush_fail_eq (t : LSMTree) (h : t.memtable.data ≠ []) (sb : List Nat) :
    t.flush_memtable true sb =
      (⟨t.memtable, t.l0_sstables, t.disk ++ [(t.sst_counter, sb)], t.sst_counter + 1⟩,
        some Error.Io) := by
  unfold LSMTree.flush_memtable
  rw [if_neg (fun hc => h ((is_empty_iff t.memtable).mp hc))]
  rfl

theorem flush_ok_eq (t : LSMTree) (h : t.memtable.data ≠ []) (sb : List Nat) (sst : SSTable)
    (hopen : SSTable.open t.sst_counter (buildFile t.memtable.data) = OpenResult.ok sst) :
    t.flush_memtable false sb =
      (⟨Memtable.new, sst :: t.l0_sstables,
        t.disk ++ [(t.sst_counter, buildFile t.memtable.data)], t.sst_counter + 1⟩, none) := by
  unfold LSMTree.flush_memtable
  rw [if_neg (fun hc => h ((is_empty_iff t.memtable).mp hc))]
  dsimp only
  rw [hopen]
  rfl

theorem flush_open_err_eq (t : LSMTree) (h : t.memtable.data ≠ []) (sb : List Nat) (e : Error)
    (hopen : SSTable.open t.sst_counter (buildFile t.memtable.data) = OpenResult.err e) :
    t.flush_memtable false sb =
      (⟨t.memtable, t.l0_sstables,
        t.disk ++ [(t.sst_counter, buildFile t.memtable.data)], t.sst_counter + 1⟩, some e) := by
  unfold LSMTree.flush_memtable
  rw [if_neg (fun hc => h ((is_empty_iff t.memtable).mp hc))]
  dsimp only
  rw [hopen]
  rfl

theorem flush_open_panik_eq (t : LSMTree) (h : t.memtable.data ≠ []) (sb : List Nat)
    (hopen : SSTable.open t.sst_counter (buildFile t.memtable.data) = OpenResult.panik) :
    t.flush_memtable false sb =
      (⟨t.memtable, t.l0_sstables,
        t.disk ++ [(t.sst_counter, buildFile t.memtable.data)], t.sst_counter + 1⟩,
        some Error.Io) := by
  unfold LSMTree.flush_memtable
  rw [if_neg (fun hc => h ((is_empty_iff t.memtable).mp hc))]
  dsimp only
  rw [hopen]
  rfl

theorem flush_success_eq (t : LSMTree) (h : t.memtable.data ≠ [])
    (hwf : entriesWF t.memtable.data) (sb : List Nat) :
    t.flush_memtable false sb =
      (⟨Memtable.new, builtReader t.sst_counter t.memtable.data :: t.l0_sstables,
        t.disk ++ [(t.sst_counter, buildFile t.memtable.data)], t.sst_counter + 1⟩, none) :=
  flush_ok_eq t h sb _ (sstOpen_buildFile t.sst_counter t.memtable.data hwf)

/-- Any failing flush on a nonempty memtable leaves the memtable and the
reader deque untouched (only the counter advances and a stray file may
appear on disk). -/
theorem flush_error_state (t : LSMTree) (ioFail : Bool) (sb : List Nat)
    (h : (t.flush_memtable ioFail sb).2 ≠ none) :
    (t.flush_memtable ioFail sb).1.memtable = t.memtable ∧
    (t.flush_memtable ioFail sb).1.l0_sstables = t.l0_sstables := by
  by_cases hd : t.memtable.data = []
  · rw [flush_empty_eq t hd ioFail sb] at h
    exact absurd rfl h
  · cases ioFail with
    | true => rw [flush_fail_eq t hd sb]; exact ⟨rfl, rfl⟩
    | false =>
      cases hopen : SSTable.open t.sst_counter (buildFile t.memtable.data) with
      | ok sst =>
        rw [flush_ok_eq t hd sb sst hopen] at h
        exact absurd rfl h
      | err e => rw [flush_open_err_eq t hd sb e hopen]; exact ⟨rfl, rfl⟩
      | panik => rw [flush_open_panik_eq t hd sb hopen]; exact ⟨rfl, rfl⟩

/-! ### Unfolding put and delete -/

theorem tree_put_noflush (t : LSMTree) (key value : List Nat) (ioFail : Bool) (sb : List Nat)
    (h : (t.memtable.put key value).size_bytes < MEMTABLE_SIZE_THRESHOLD) :
    t.put key value ioFail sb =
      (⟨t.memtable.put key value, t.l0_sstables, t.disk, t.sst_counter⟩, none) := by
  unfold LSMTree.put
  rw [if_neg (by dsimp only; omega)]

theorem tree_put_flush (t : LSMTree) (key value : List Nat) (ioFail : Bool) (sb : List Nat)
    (h : (t.memtable.put key value).size_bytes ≥ MEMTABLE_SIZE_THRESHOLD) :
    t.put key value ioFail sb =
      LSMTree.flush_memtable
        ⟨t.memtable.put key value, t.l0_sstables, t.disk, t.sst_counter⟩ ioFail sb := by
  unfold LSMTree.put
  rw [if_pos (by dsimp only; omega)]

theorem tree_delete_noflush (t : LSMTree) (key : List Nat) (ioFail : Bool) (sb : List Nat)
    (h : (t.memtable.delete key).size_bytes < MEMTABLE_SIZE_THRESHOLD) :
    t.delete key ioFail sb =
      (⟨t.memtable.delete key, t.l0_sstables, t.disk, t.sst_counter⟩, none) := by
  unfold LSMTree.delete
  rw [if_neg (by dsimp only; omega)]

theorem tree_delete_flush (t : LSMTree) (key : List Nat) (ioFail : Bool) (sb : List Nat)
    (h : (t.memtable.delete key).size_bytes ≥ MEMTABLE_SIZE_THRESHOLD) :
    t.delete key ioFail sb =
      LSMTree.flush_memtable
        ⟨t.memtable.delete key, t.l0_sstables, t.disk, t.sst_counter⟩ ioFail sb := by
  unfold LSMTree.delete
  rw [if_pos (by dsimp only; omega)]

/-! ### Recovery -/

theorem sortByNum_sorted_id : ∀ {l : List (Nat × List Nat)},
    l.Pairwise (fun a b => a.1 ≤ b.1) → sortByNum l = l
  | [], _ => rfl
  | e :: rest, h => by
    rw [List.pairwise_cons] at h
    obtain ⟨hhead, htail⟩ := h
    show insertByNum e (sortByNum rest) = e :: rest
    rw [sortByNum_sorted_id htail]
    cases rest with
    | nil => rfl
    | cons f r =>
      unfold insertByNum
      rw [if_pos (hhead f (List.mem_cons_self _ _))]

theorem foldl_if_max (nums : List Nat) (a : Nat) :
    nums.foldl (fun a b => if a < b then b else a) a = nums.foldl Nat.max a := by
  have hfun : (fun (a b : Nat) => if a < b then b else a) = Nat.max := by
    funext x y
    rcases Nat.lt_or_ge x y with hlt | hge
    · rw [if_pos hlt]; exact (Nat.max_eq_right (Nat.le_of_lt hlt)).symm
    · rw [if_neg (by omega)]; exact (Nat.max_eq_left hge).symm
  rw [hfun]

theorem recoverLoop_built :
    ∀ (files : List (Nat × List (List Nat × Value))) (l0 : List SSTable) (maxn : Nat),
    (∀ f ∈ files, entriesWF f.2) →
    recoverLoop (files.map (fun f => (f.1, buildFile f.2))) l0 maxn
      = RecovResult.ok ((files.map (fun f => builtReader f.1 f.2)).reverse ++ l0)
          ((files.map Prod.fst).foldl (fun a b => if a < b then b else a) maxn)
  | [], l0, maxn, _ => rfl
  | f :: files, l0, maxn, h => by
    rw [List.map_cons, recoverLoop]
    rw [sstOpen_buildFile f.1 f.2 (h f (List.mem_cons_self _ _))]
    dsimp only
    rw [recoverLoop_built files _ _ (fun q hq => h q (List.mem_cons_of_mem _ hq))]
    rw [List.map_cons, List.reverse_cons, List.map_cons, List.foldl_cons]
    simp [List.append_assoc]

theorem treeOpen_built (files : List (Nat × List (List Nat × Value)))
    (hwf : ∀ f ∈ files, entriesWF f.2)
    (hasc : files.Pairwise (fun a b => a.1 < b.1)) :
    LSMTree.open (files.map (fun f => (f.1, buildFile f.2)))
      = TreeOpenResult.ok
          ⟨Memtable.new, (files.map (fun f => builtReader f.1 f.2)).reverse,
            files.map (fun f => (f.1, buildFile f.2)),
            (files.map Prod.fst).foldl Nat.max 0 + 1⟩ := by
  unfold LSMTree.open
  rw [sortByNum_sorted_id (by
    rw [List.pairwise_map]
    exact hasc.imp (fun hab => Nat.le_of_lt hab))]
  rw [recoverLoop_built files [] 0 hwf]
  rw [foldl_if_max]
  simp

/-! ### Unfolding the read path of the tree -/

theorem tree_get_of_stored (t : LSMTree) (key v : List Nat)
    (h : t.memtable.get key = some (Value.Some v)) : t.get key = Except.ok (some v) := by
  unfold LSMTree.get
  rw [h]

theorem tree_get_of_tombstone (t : LSMTree) (key : List Nat)
    (h : t.memtable.get key = some Value.Tombstone) : t.get key = Except.ok none := by
  unfold LSMTree.get
  rw [h]

theorem tree_get_of_none (t : LSMTree) (key : List Nat)
    (h : t.memtable.get key = none) : t.get key = scanL0 t.l0_sstables key := by
  unfold LSMTree.get
  rw [h]

/-- Whatever the prior entry, put stores the new value under the key. -/
theorem put_data_eq (m : Memtable) (key value : List Nat) :
    (m.put key value).data = mapInsert key (Value.Some value) m.data := by
  cases hget : mapGet m.data key with
  | none => rw [put_eq_of_none hget]
  | some old =>
    cases old with
    | Some oldv => rw [put_eq_of_some hget]
    | Tombstone => rw [put_eq_of_tombstone hget]

/-- A flush that reports no error on a nonempty memtable cleared the
memtable and wrote exactly the built file to disk. -/
theorem flush_none_state (t : LSMTree) (ioFail : Bool) (sb : List Nat)
    (hne : t.memtable.data ≠ []) (h : (t.flush_memtable ioFail sb).2 = none) :
    (t.flush_memtable ioFail sb).1.memtable = Memtable.new ∧
    (t.flush_memtable ioFail sb).1.disk
      = t.disk ++ [(t.sst_counter, buildFile t.memtable.data)] := by
  cases ioFail with
  | true =>
    rw [flush_fail_eq t hne sb] at h
    exact absurd h (by simp)
  | false =>
    cases hopen : SSTable.open t.sst_counter (buildFile t.memtable.data) with
    | ok sst => rw [flush_ok_eq t hne sb sst hopen]; exact ⟨rfl, rfl⟩
    | err e =>
      rw [flush_open_err_eq t hne sb e hopen] at h
      exact absurd h (by simp)
    | panik =>
      rw [flush_open_panik_eq t hne sb hopen] at h
      exact absurd h (by simp)

/-! # Part 3: The claims -/

/-- C1: Tree.get performs a layered lookup: a Stored memtable entry is
returned directly, and a memtable Tombstone yields not-found without
consulting any SSTable; if the memtable has no entry, the Readers are
scanned in their stored newest-first order and the first Reader returning
any entry determines the result — Stored yields that value, Tombstone
yields not-found — with the older Readers behind it never affecting the
result; if no layer has an entry, the result is not-found. -/
theorem tree_get_layered_lookup (t : LSMTree) (key : List Nat) :
    (∀ v, t.memtable.get key = some (Value.Some v) → t.get key = Except.ok (some v)) ∧
    (t.memtable.get key = some Value.Tombstone → t.get key = Except.ok none) ∧
    (∀ pre r post, t.memtable.get key = none → t.l0_sstables = pre ++ r :: post →
      (∀ s ∈ pre, s.get key = Except.ok none) →
      (∀ v, r.get key = Except.ok (some (Value.Some v)) → t.get key = Except.ok (some v)) ∧
      (r.get key = Except.ok (some Value.Tombstone) → t.get key = Except.ok none)) ∧
    (t.memtable.get key = none → (∀ s ∈ t.l0_sstables, s.get key = Except.ok none) →
      t.get key = Except.ok none) := by
  refine ⟨?_, ?_, ?_, ?_⟩
  · intro v h
    exact tree_get_of_stored t key v h
  · intro h
    exact tree_get_of_tombstone t key h
  · intro pre r post hnone hsplit hpre
    constructor
    · intro v hr
      rw [tree_get_of_none t key hnone, hsplit,
        scanL0_append_none pre _ key hpre, scanL0_cons_stored r post key v hr]
    · intro hr
      rw [tree_get_of_none t key hnone, hsplit,
        scanL0_append_none pre _ key hpre, scanL0_cons_tombstone r post key hr]
  · intro hnone hall
    rw [tree_get_of_none t key hnone]
    exact scanL0_all_none t.l0_sstables key hall

/-- C1 witness: a stored memtable entry, a memtable tombstone, a two-reader
scan where the newest reader masks the older one, and an all-miss scan. -/
theorem tree_get_layered_lookup_witness :
    LSMTree.get ⟨⟨[([2], Value.Some [9])], 3⟩, [], [], 1⟩ [2] = Except.ok (some [9]) ∧
    LSMTree.get ⟨⟨[([2], Value.Tombstone)], 1⟩, [], [], 1⟩ [2] = Except.ok none ∧
    LSMTree.get ⟨Memtable.new,
      [⟨2, [1, 0, 0, 0, 7, 1, 0, 0, 0, 5, 0], [([7], 0)], 1⟩,
       ⟨1, [1, 0, 0, 0, 7, 1, 0, 0, 0, 6, 0], [([7], 0)], 1⟩], [], 3⟩ [7]
      = Except.ok (some [5]) ∧
    LSMTree.get ⟨Memtable.new, [], [], 1⟩ [7] = Except.ok none := by
  refine ⟨?_, ?_, ?_, ?_⟩
  · exact (tree_get_layered_lookup ⟨⟨[([2], Value.Some [9])], 3⟩, [], [], 1⟩ [2]).1
      [9] (by decide)
  · exact (tree_get_layered_lookup ⟨⟨[([2], Value.Tombstone)], 1⟩, [], [], 1⟩ [2]).2.1
      (by decide)
  · exact ((tree_get_layered_lookup ⟨Memtable.new,
      [⟨2, [1, 0, 0, 0, 7, 1, 0, 0, 0, 5, 0], [([7], 0)], 1⟩,
       ⟨1, [1, 0, 0, 0, 7, 1, 0, 0, 0, 6, 0], [([7], 0)], 1⟩], [], 3⟩ [7]).2.2.1
      [] ⟨2, [1, 0, 0, 0, 7, 1, 0, 0, 0, 5, 0], [([7], 0)], 1⟩
      [⟨1, [1, 0, 0, 0, 7, 1, 0, 0, 0, 6, 0], [([7], 0)], 1⟩]
      (by decide) rfl (by simp)).1 [5] (by decide)
  · exact (tree_get_layered_lookup ⟨Memtable.new, [], [], 1⟩ [7]).2.2.2
      (by decide) (by simp)

/-- C3: the claim says SSTableBuilder::new fails by returning an I/O error
when the file cannot be created; the source instead calls
File::create(&path).expect("Error creating file") inside a function whose
signature returns Result and whose body otherwise always returns Ok, so a
creation failure panics.  Evaluating the model at the failing input (a
path where File::create fails) yields the panic outcome, never an Err. -/
theorem builder_new_panics_on_create_failure :
    SSTableBuilder.new false = NewResult.panik ∧
    ∀ b, SSTableBuilder.new false ≠ NewResult.ok b := by
  constructor
  · rfl
  · intro b h
    exact NewResult.noConfusion h

/-- C4: when a put or delete returns an error (its triggered flush failed),
the memtable holds exactly the contents it had after the memtable update
and before the flush (it is not cleared), and the reader sequence is
unchanged — no reader is added. -/
theorem failed_flush_preserves_state (t : LSMTree) (key value : List Nat)
    (ioFail : Bool) (sb : List Nat) :
    ((t.put key value ioFail sb).2 ≠ none →
      (t.put key value ioFail sb).1.memtable = t.memtable.put key value ∧
      (t.put key value ioFail sb).1.l0_sstables = t.l0_sstables) ∧
    ((t.delete key ioFail sb).2 ≠ none →
      (t.delete key ioFail sb).1.memtable = t.memtable.delete key ∧
      (t.delete key ioFail sb).1.l0_sstables = t.l0_sstables) := by
  constructor
  · intro h
    by_cases hth : (t.memtable.put key value).size_bytes ≥ MEMTABLE_SIZE_THRESHOLD
    · rw [tree_put_flush t key value ioFail sb hth] at h ⊢
      exact flush_error_state _ ioFail sb h
    · rw [tree_put_noflush t key value ioFail sb (by omega)] at h
      exact absurd rfl h
  · intro h
    by_cases hth : (t.memtable.delete key).size_bytes ≥ MEMTABLE_SIZE_THRESHOLD
    · rw [tree_delete_flush t key ioFail sb hth] at h ⊢
      exact flush_error_state _ ioFail sb h
    · rw [tree_delete_noflush t key ioFail sb (by omega)] at h
      exact absurd rfl h

/-- C4 witness: a put and a delete that both cross the threshold and hit a
failing flush; the error is reported while the memtable keeps the freshly
updated contents and no reader appears. -/
theorem failed_flush_preserves_state_witness :
    ((LSMTree.put ⟨⟨[([1], Value.Some (List.replicate 4094 7))], 4095⟩, [], [], 1⟩
        [2] [3] true []).2 ≠ none ∧
      (LSMTree.put ⟨⟨[([1], Value.Some (List.replicate 4094 7))], 4095⟩, [], [], 1⟩
        [2] [3] true []).1.memtable
        = Memtable.put ⟨[([1], Value.Some (List.replicate 4094 7))], 4095⟩ [2] [3] ∧
      (LSMTree.put ⟨⟨[([1], Value.Some (List.replicate 4094 7))], 4095⟩, [], [], 1⟩
        [2] [3] true []).1.l0_sstables = []) ∧
    ((LSMTree.delete ⟨⟨[([1], Value.Some (List.replicate 4094 7))], 4095⟩, [], [], 1⟩
        [2] true []).2 ≠ none ∧
      (LSMTree.delete ⟨⟨[([1], Value.Some (List.replicate 4094 7))], 4095⟩, [], [], 1⟩
        [2] true []).1.memtable
        = Memtable.delete ⟨[([1], Value.Some (List.replicate 4094 7))], 4095⟩ [2] ∧
      (LSMTree.delete ⟨⟨[([1], Value.Some (List.replicate 4094 7))], 4095⟩, [], [], 1⟩
        [2] true []).1.l0_sstables = []) := by
  have hput : (LSMTree.put ⟨⟨[([1], Value.Some (List.replicate 4094 7))], 4095⟩, [], [], 1⟩
      [2] [3] true []).2 ≠ none := by decide
  have hdel : (LSMTree.delete ⟨⟨[([1], Value.Some (List.replicate 4094 7))], 4095⟩, [], [], 1⟩
      [2] true []).2 ≠ none := by decide
  have h1 := (failed_flush_preserves_state
    ⟨⟨[([1], Value.Some (List.replicate 4094 7))], 4095⟩, [], [], 1⟩ [2] [3] true []).1 hput
  have h2 := (failed_flush_preserves_state
    ⟨⟨[([1], Value.Some (List.replicate 4094 7))], 4095⟩, [], [], 1⟩ [2] [3] true []).2 hdel
  exact ⟨⟨hput, h1.1, h1.2⟩, ⟨hdel, h2.1, h2.2⟩⟩

/-- C5: starting from an empty memtable, after any sequence of put and
delete operations, size_bytes equals the sum over all current entries of
the key length plus, for stored entries only, the payload length. -/
theorem memtable_size_accumulator (ops : List MemOp) :
    (applyOps Memtable.new ops).size_bytes = specSize (applyOps Memtable.new ops).data :=
  (memtableInv_applyOps memtableInv_new ops).2

/-- C8: a put followed by a get of the same key, with no intervening flush,
returns exactly the bytes that were put: the put reports no error and the
get finds the value. -/
theorem tree_put_get_roundtrip (t : LSMTree) (key value : List Nat) (ioFail : Bool)
    (sb : List Nat) (h : (t.memtable.put key value).size_bytes < MEMTABLE_SIZE_THRESHOLD) :
    (t.put key value ioFail sb).2 = none ∧
    (t.put key value ioFail sb).1.get key = Except.ok (some value) := by
  rw [tree_put_noflush t key value ioFail sb h]
  refine ⟨rfl, ?_⟩
  refine tree_get_of_stored _ key value ?_
  show (t.memtable.put key value).get key = some (Value.Some value)
  unfold Memtable.get
  rw [put_data_eq, mapGet_mapInsert_self]

/-- C8 witness: a concrete small put-then-get round trip. -/
theorem tree_put_get_roundtrip_witness :
    (LSMTree.put ⟨Memtable.new, [], [], 1⟩ [4, 2] [10, 20] false []).2 = none ∧
    (LSMTree.put ⟨Memtable.new, [], [], 1⟩ [4, 2] [10, 20] false []).1.get [4, 2]
      = Except.ok (some [10, 20]) :=
  tree_put_get_roundtrip ⟨Memtable.new, [], [], 1⟩ [4, 2] [10, 20] false [] (by decide)

/-- C9: deleting a key that already holds a tombstone changes no observable
state: size_bytes, len, and the result of get on every key are unchanged. -/
theorem memtable_delete_idempotent (m : Memtable) (key : List Nat)
    (h : m.get key = some Value.Tombstone) :
    (m.delete key).size_bytes = m.size_bytes ∧
    (m.delete key).len = m.len ∧
    ∀ k, (m.delete key).get k = m.get k := by
  have heq : m.delete key = m := delete_eq_of_tombstone h
  rw [heq]
  exact ⟨rfl, rfl, fun _ => rfl⟩

/-- C9 witness: a second delete of an already-tombstoned key observed on a
concrete memtable. -/
theorem memtable_delete_idempotent_witness :
    (Memtable.delete ⟨[([3], Value.Tombstone), ([5], Value.Some [8])], 2⟩ [3]).size_bytes
        = 2 ∧
    (Memtable.delete ⟨[([3], Value.Tombstone), ([5], Value.Some [8])], 2⟩ [3]).len = 2 ∧
    (Memtable.delete ⟨[([3], Value.Tombstone), ([5], Value.Some [8])], 2⟩ [3]).get [5]
        = some (Value.Some [8]) := by
  have h := memtable_delete_idempotent ⟨[([3], Value.Tombstone), ([5], Value.Some [8])], 2⟩
    [3] (by decide)
  exact ⟨h.1, h.2.1, (h.2.2 [5]).trans (by decide)⟩

/-- C6: a put or delete whose resulting size accumulator stays below the
4096-byte threshold performs no flush (the tree keeps its disk, readers
and counter, the error is none and only the memtable changed); one that
reaches or exceeds the threshold and returns successfully wrote exactly
one new on-disk file and left the memtable empty; and after every
successful put or delete the memtable size is below the threshold. -/
theorem flush_threshold_trigger (t : LSMTree) (key value : List Nat) (ioFail : Bool)
    (sb : List Nat) :
    ((t.put key value ioFail sb).2 = none →
      (t.put key value ioFail sb).1.memtable.size_bytes < MEMTABLE_SIZE_THRESHOLD) ∧
    ((t.memtable.put key value).size_bytes < MEMTABLE_SIZE_THRESHOLD →
      t.put key value ioFail sb
        = (⟨t.memtable.put key value, t.l0_sstables, t.disk, t.sst_counter⟩, none)) ∧
    (MEMTABLE_SIZE_THRESHOLD ≤ (t.memtable.put key value).size_bytes →
      (t.put key value ioFail sb).2 = none →
      (t.put key value ioFail sb).1.disk
          = t.disk ++ [(t.sst_counter, buildFile (t.memtable.put key value).data)] ∧
      (t.put key value ioFail sb).1.memtable = Memtable.new) ∧
    ((t.delete key ioFail sb).2 = none →
      (t.delete key ioFail sb).1.memtable.size_bytes < MEMTABLE_SIZE_THRESHOLD) ∧
    ((t.memtable.delete key).size_bytes < MEMTABLE_SIZE_THRESHOLD →
      t.delete key ioFail sb
        = (⟨t.memtable.delete key, t.l0_sstables, t.disk, t.sst_counter⟩, none)) ∧
    (MEMTABLE_SIZE_THRESHOLD ≤ (t.memtable.delete key).size_bytes →
      (t.delete key ioFail sb).2 = none →
      (t.delete key ioFail sb).1.disk
          = t.disk ++ [(t.sst_counter, buildFile (t.memtable.delete key).data)] ∧
      (t.delete key ioFail sb).1.memtable = Memtable.new) := by
  refine ⟨?_, ?_, ?_, ?_, ?_, ?_⟩
  · intro h
    by_cases hth : MEMTABLE_SIZE_THRESHOLD ≤ (t.memtable.put key value).size_bytes
    · rw [tree_put_flush t key value ioFail sb hth] at h ⊢
      rw [(flush_none_state _ ioFail sb (put_data_ne_nil t.memtable key value) h).1]
      decide
    · rw [tree_put_noflush t key value ioFail sb (by omega)]
      dsimp only
      omega
  · intro hth
    exact tree_put_noflush t key value ioFail sb hth
  · intro hth h
    rw [tree_put_flush t key value ioFail sb hth] at h ⊢
    exact ⟨(flush_none_state _ ioFail sb (put_data_ne_nil t.memtable key value) h).2,
      (flush_none_state _ ioFail sb (put_data_ne_nil t.memtable key value) h).1⟩
  · intro h
    by_cases hth : MEMTABLE_SIZE_THRESHOLD ≤ (t.memtable.delete key).size_bytes
    · rw [tree_delete_flush t key ioFail sb hth] at h ⊢
      rw [(flush_none_state _ ioFail sb (delete_data_ne_nil t.memtable key) h).1]
      decide
    · rw [tree_delete_noflush t key ioFail sb (by omega)]
      dsimp only
      omega
  · intro hth
    exact tree_delete_noflush t key ioFail sb hth
  · intro hth h
    rw [tree_delete_flush t key ioFail sb hth] at h ⊢
    exact ⟨(flush_none_state _ ioFail sb (delete_data_ne_nil t.memtable key) h).2,
      (flush_none_state _ ioFail sb (delete_data_ne_nil t.memtable key) h).1⟩

/-- C6 witness: a small put stays below the threshold and creates no file;
a put whose value drives the accumulator to exactly 4096 flushes
synchronously, leaving one new file and an empty memtable. -/
theorem flush_threshold_trigger_witness :
    (LSMTree.put ⟨Memtable.new, [], [], 1⟩ [1] [2, 3] false []
      = (⟨Memtable.put Memtable.new [1] [2, 3], [], [], 1⟩, none)) ∧
    (LSMTree.put ⟨Memtable.new, [], [], 1⟩ [1] [2, 3] false []).1.memtable.size_bytes
      < MEMTABLE_SIZE_THRESHOLD ∧
    (LSMTree.put ⟨Memtable.new, [], [], 1⟩ [1] (List.replicate 4095 9) false []).1.disk
      = [] ++ [(1, buildFile (Memtable.put Memtable.new [1] (List.replicate 4095 9)).data)] ∧
    (LSMTree.put ⟨Memtable.new, [], [], 1⟩ [1] (List.replicate 4095 9) false []).1.memtable
      = Memtable.new := by
  have hsmall := (flush_threshold_trigger ⟨Memtable.new, [], [], 1⟩ [1] [2, 3] false []).2.1
    (by decide)
  have hdata : (Memtable.put Memtable.new [1] (List.replicate 4095 9)).data
      = [([1], Value.Some (List.replicate 4095 9))] := by
    rw [@put_eq_of_none Memtable.new [1] rfl (List.replicate 4095 9)]
    rfl
  have hsize : MEMTABLE_SIZE_THRESHOLD
      ≤ (Memtable.put Memtable.new [1] (List.replicate 4095 9)).size_bytes := by
    rw [@put_eq_of_none Memtable.new [1] rfl (List.replicate 4095 9)]
    show MEMTABLE_SIZE_THRESHOLD
      ≤ Memtable.new.size_bytes + [1].length + (List.replicate 4095 9).length
    rw [List.length_replicate]
    decide
  have hwfe : entriesWF (Memtable.put Memtable.new [1] (List.replicate 4095 9)).data := by
    rw [hdata]
    refine ⟨?_, ?_, ?_, ?_, by norm_num⟩
    · unfold keysSorted
      exact List.pairwise_singleton _ _
    · intro e he
      rw [List.mem_singleton] at he
      subst he
      refine ⟨by norm_num, ?_⟩
      simp only [payloadLen, List.length_replicate]
      norm_num
    · simp only [dataBlock, List.map_cons, List.map_nil, List.flatten_cons, List.flatten_nil,
        List.length_append, List.length_nil, record_length, payloadLen, List.length_replicate]
      norm_num
    · simp only [indexBlock, offsetsFrom, List.map_cons, List.map_nil, List.flatten_cons,
        List.flatten_nil, indexEntry, List.length_append, List.length_nil, leBytes_length,
        List.length_cons]
      norm_num
  have hne : (Memtable.put Memtable.new [1] (List.replicate 4095 9)).data ≠ [] :=
    put_data_ne_nil Memtable.new [1] (List.replicate 4095 9)
  have hnone : (LSMTree.put ⟨Memtable.new, [], [], 1⟩ [1] (List.replicate 4095 9)
      false []).2 = none := by
    rw [tree_put_flush ⟨Memtable.new, [], [], 1⟩ [1] (List.replicate 4095 9) false [] hsize]
    rw [flush_success_eq ⟨Memtable.put Memtable.new [1] (List.replicate 4095 9), [], [], 1⟩
      hne hwfe []]
  have hbig := (flush_threshold_trigger ⟨Memtable.new, [], [], 1⟩ [1]
    (List.replicate 4095 9) false []).2.2.1 hsize hnone
  refine ⟨hsmall, ?_, hbig.1, hbig.2⟩
  exact (flush_threshold_trigger ⟨Memtable.new, [], [], 1⟩ [1] [2, 3] false []).1
    (by rw [hsmall])

/-- C7: opening a directory of N previously flushed files recovers exactly
N readers in newest-first order (the reverse of the file-name order), with
an empty memtable, the counter one past the maximum sequence number (1
when no file exists, since the maximum over an empty directory is 0), and
every flushed key readable through the layered lookup over the recovered
files, newest first. -/
theorem tree_open_recovery (files : List (Nat × List (List Nat × Value)))
    (hwf : ∀ f ∈ files, entriesWF f.2)
    (hasc : files.Pairwise (fun a b => a.1 < b.1)) :
    ∃ t, LSMTree.open (files.map (fun f => (f.1, buildFile f.2))) = TreeOpenResult.ok t ∧
      t.l0_sstables.length = files.length ∧
      t.l0_sstables.map SSTable.path = (files.map Prod.fst).reverse ∧
      t.memtable = Memtable.new ∧
      t.sst_counter = maxSeqNum (files.map (fun f => (f.1, buildFile f.2))) + 1 ∧
      ∀ key, t.get key = Except.ok (layeredLookup (files.map Prod.snd).reverse key) := by
  refine ⟨⟨Memtable.new, (files.map (fun f => builtReader f.1 f.2)).reverse,
      files.map (fun f => (f.1, buildFile f.2)), (files.map Prod.fst).foldl Nat.max 0 + 1⟩,
    treeOpen_built files hwf hasc, ?_, ?_, rfl, ?_, ?_⟩
  · simp
  · rw [List.map_reverse, List.map_map]
    rfl
  · show (files.map Prod.fst).foldl Nat.max 0 + 1 = _
    unfold maxSeqNum
    rw [List.map_map]
    rfl
  · intro key
    rw [tree_get_of_none ⟨Memtable.new, (files.map (fun f => builtReader f.1 f.2)).reverse,
      files.map (fun f => (f.1, buildFile f.2)), (files.map Prod.fst).foldl Nat.max 0 + 1⟩
      key rfl]
    have hlayers := scanL0_layers ((files.map (fun f => (builtReader f.1 f.2, f.2))).reverse)
      key
      (by
        intro p hp
        rw [List.mem_reverse] at hp
        obtain ⟨f, hf, rfl⟩ := List.mem_map.mp hp
        exact sstGet_built f.1 f.2 (hwf f hf) key)
    rw [show ((files.map (fun f => builtReader f.1 f.2)).reverse : List SSTable)
        = ((files.map (fun f => (builtReader f.1 f.2, f.2))).reverse).map Prod.fst from by
      rw [List.map_reverse, List.map_map]
      rfl]
    rw [hlayers]
    rw [show (((files.map (fun f => (builtReader f.1 f.2, f.2))).reverse).map Prod.snd
          : List (List (List Nat × Value)))
        = (files.map Prod.snd).reverse from by
      rw [List.map_reverse, List.map_map]
      rfl]

/-- C7 witness: two flushed files recovered newest-first with the counter
set past the maximum sequence number and both keys retrievable. -/
theorem tree_open_recovery_witness :
    ∃ t, LSMTree.open ([((1 : Nat), [([65], Value.Some [66])]),
        ((2 : Nat), [([67], Value.Some [68])])].map (fun f => (f.1, buildFile f.2)))
        = TreeOpenResult.ok t ∧
      t.l0_sstables.length = [((1 : Nat), [([65], Value.Some [66])]),
        ((2 : Nat), [([67], Value.Some [68])])].length ∧
      t.l0_sstables.map SSTable.path = ([((1 : Nat), [([65], Value.Some [66])]),
        ((2 : Nat), [([67], Value.Some [68])])].map Prod.fst).reverse ∧
      t.memtable = Memtable.new ∧
      t.sst_counter = maxSeqNum ([((1 : Nat), [([65], Value.Some [66])]),
        ((2 : Nat), [([67], Value.Some [68])])].map (fun f => (f.1, buildFile f.2))) + 1 ∧
      ∀ key, t.get key = Except.ok (layeredLookup
        ([((1 : Nat), [([65], Value.Some [66])]),
          ((2 : Nat), [([67], Value.Some [68])])].map Prod.snd).reverse key) :=
  tree_open_recovery [(1, [([65], Value.Some [66])]), (2, [([67], Value.Some [68])])]
    (by decide) (by decide)

/-- C10: an empty stored value survives a flush unambiguously: the builder
writes a zero-length stored payload with tombstone flag 0; the reader
parses any record with value_len = 0 by its flag byte alone — flag 1 gives
a Tombstone, any other flag gives the empty Stored value; and a Tree get
of a flushed empty value through a built file returns the empty byte
string, not a miss. -/
theorem empty_value_flush_unambiguous :
    (∀ (b : SSTableBuilder) (key : List Nat),
      (b.add key (Value.Some [])).buf
        = b.buf ++ leBytes key.length 4 ++ key ++ leBytes 0 4 ++ [0]) ∧
    (∀ (s : SSTable) (A B key : List Nat) (flag : Nat),
      s.file = A ++ (leBytes key.length 4 ++ (key ++ (leBytes 0 4 ++ ([flag] ++ B)))) →
      mapGet s.index key = some A.length → key.length < 2 ^ 32 →
      s.get key = Except.ok (some (if flag = 1 then Value.Tombstone else Value.Some []))) ∧
    (∀ (es : List (List Nat × Value)) (num : Nat) (key : List Nat)
      (dk : List (Nat × List Nat)) (c : Nat),
      entriesWF es → mapGet es key = some (Value.Some []) →
      LSMTree.get ⟨Memtable.new, [builtReader num es], dk, c⟩ key
        = Except.ok (some [])) := by
  refine ⟨?_, ?_, ?_⟩
  · intro b key
    show b.buf ++ leBytes key.length 4 ++ key ++ leBytes (List.length []) 4 ++ [] ++ [0] = _
    simp
  · intro s A B key flag hfile hidx hklen
    have hf2 : s.file = (A ++ leBytes key.length 4) ++ (key ++ (leBytes 0 4 ++ ([flag] ++ B))) := by
      rw [hfile]; simp [List.append_assoc]
    have hf3 : s.file = (A ++ leBytes key.length 4 ++ key) ++ (leBytes 0 4 ++ ([flag] ++ B)) := by
      rw [hfile]; simp [List.append_assoc]
    have hf5 : s.file = (A ++ leBytes key.length 4 ++ key ++ leBytes 0 4) ++ ([flag] ++ B) := by
      rw [hfile]; simp [List.append_assoc]
    unfold SSTable.get
    rw [hidx]
    dsimp only
    rw [readBytes_at hfile rfl (leBytes_length key.length 4).symm]
    dsimp only
    rw [leNat_leBytes key.length 4 (by rw [pow_256_4]; exact hklen)]
    rw [readBytes_at hf2
      (show A.length + 4 = (A ++ leBytes key.length 4).length from by simp_arith) rfl]
    dsimp only
    rw [if_neg (fun hc => hc rfl)]
    rw [readBytes_at hf3
      (show A.length + 4 + key.length = (A ++ leBytes key.length 4 ++ key).length from by
        simp_arith)
      (leBytes_length 0 4).symm]
    dsimp only
    rw [leNat_leBytes 0 4 (by norm_num)]
    rw [if_neg (by omega)]
    dsimp only
    rw [readBytes_at hf5
      (show A.length + 4 + key.length + 4 + 0
          = (A ++ leBytes key.length 4 ++ key ++ leBytes 0 4).length from by simp_arith)
      (show (1 : Nat) = ([flag] : List Nat).length from rfl)]
    dsimp only
    by_cases hflag : flag = 1
    · rw [if_pos (by simp [hflag]), if_pos hflag]
    · rw [if_neg (by simp [hflag]), if_neg hflag]
  · intro es num key dk c hwf hget
    rw [tree_get_of_none ⟨Memtable.new, [builtReader num es], dk, c⟩ key rfl]
    rw [scanL0_cons_stored (builtReader num es) [] key []
      (by rw [sstGet_built num es hwf key, hget])]

/-- C10 witness: a one-entry built file holding an empty stored value; the
builder record carries flag 0, the reader parses it back as the empty
stored value both through the record-level parse and through a tree get. -/
theorem empty_value_flush_unambiguous_witness :
    (SSTableBuilder.add ⟨[], [], 0, 0⟩ [65] (Value.Some [])).buf
      = [] ++ leBytes 1 4 ++ [65] ++ leBytes 0 4 ++ [0] ∧
    SSTable.get ⟨9, [1, 0, 0, 0, 65, 0, 0, 0, 0, 0], [([65], 0)], 1⟩ [65]
      = Except.ok (some (if 0 = 1 then Value.Tombstone else Value.Some [])) ∧
    LSMTree.get ⟨Memtable.new, [builtReader 9 [([65], Value.Some [])]], [], 1⟩ [65]
      = Except.ok (some []) := by
  refine ⟨?_, ?_, ?_⟩
  · exact (empty_value_flush_unambiguous.1 ⟨[], [], 0, 0⟩ [65]).trans (by decide)
  · exact empty_value_flush_unambiguous.2.1
      ⟨9, [1, 0, 0, 0, 65, 0, 0, 0, 0, 0], [([65], 0)], 1⟩ [] [] [65] 0
      (by decide) (by decide) (by decide)
  · exact empty_value_flush_unambiguous.2.2 [([65], Value.Some [])] 9 [65] [] 1
      (by decide) (by decide)

/-- C2 counterexample: the claim says open fails with a corruption error
whenever the footer or index cannot be parsed as valid framing, naming a
truncated file and an index region whose records do not fit within
index_len.  On the code, a 33-byte file with a correct magic and
index_len = 1 whose single index byte cannot hold an index record makes
open panic (slice index out of bounds), and a file shorter than the
32-byte footer makes the initial seek fail with an I/O error; neither is a
corruption error. -/
theorem sst_open_framing_counterexample :
    (SSTable.open 0 ([0] ++ (leBytes 0 8 ++ leBytes 1 4 ++ leBytes 0 4 ++
        leBytes MAGIC_NUMBER 8 ++ leBytes 0 8)) = OpenResult.panik ∧
      ∀ msg, SSTable.open 0 ([0] ++ (leBytes 0 8 ++ leBytes 1 4 ++ leBytes 0 4 ++
        leBytes MAGIC_NUMBER 8 ++ leBytes 0 8)) ≠ OpenResult.err (Error.Corruption msg)) ∧
    (SSTable.open 0 [1, 2, 3] = OpenResult.err Error.Io ∧
      ∀ msg, SSTable.open 0 [1, 2, 3] ≠ OpenResult.err (Error.Corruption msg)) := by
  have h1 : SSTable.open 0 ([0] ++ (leBytes 0 8 ++ leBytes 1 4 ++ leBytes 0 4 ++
      leBytes MAGIC_NUMBER 8 ++ leBytes 0 8)) = OpenResult.panik := by decide
  have h2 : SSTable.open 0 [1, 2, 3] = OpenResult.err Error.Io := by decide
  refine ⟨⟨h1, ?_⟩, ⟨h2, ?_⟩⟩
  · intro msg hc
    rw [h1] at hc
    exact OpenResult.noConfusion hc
  · intro msg hc
    rw [h2] at hc
    have := OpenResult.err.inj hc
    exact Error.noConfusion this

/-- C2 (amended): on a byte file, open returns a corruption error exactly
when the file is at least 32 bytes long and its footer's magic field
mismatches; a file shorter than the footer fails with an I/O error (the
seek fails, an underlying I/O failure); malformed index framing panics
rather than erroring (see the counterexample); and opening a
builder-produced well-formed file succeeds, its in-memory index mapping
every indexed key to the offset of its record in the data region. -/
theorem sst_open_corruption_amended (num : Nat) (fb : List Nat)
    (hbytes : ∀ b ∈ fb, b < 256) :
    ((∃ msg, SSTable.open num fb = OpenResult.err (Error.Corruption msg)) ↔
      (FOOTER_SIZE ≤ fb.length ∧ footerMagic fb ≠ MAGIC_NUMBER)) ∧
    (fb.length < FOOTER_SIZE → SSTable.open num fb = OpenResult.err Error.Io) ∧
    (∀ es, entriesWF es → fb = buildFile es →
      SSTable.open num fb = OpenResult.ok (builtReader num es)) := by
  have hshort : fb.length < FOOTER_SIZE → SSTable.open num fb = OpenResult.err Error.Io := by
    intro hlen
    unfold SSTable.open
    rw [if_pos hlen]
  refine ⟨?_, hshort, ?_⟩
  · by_cases hlen : fb.length < FOOTER_SIZE
    · constructor
      · rintro ⟨msg, hmsg⟩
        rw [hshort hlen] at hmsg
        have := OpenResult.err.inj hmsg
        exact Error.noConfusion this
      · rintro ⟨h32, _⟩
        unfold FOOTER_SIZE at h32 hlen
        omega
    · by_cases hmag : footerMagic fb = MAGIC_NUMBER
      · unfold footerMagic at hmag
        constructor
        · rintro ⟨msg, hmsg⟩
          exfalso
          unfold SSTable.open at hmsg
          rw [if_neg hlen] at hmsg
          dsimp only at hmsg
          rw [if_neg (fun hc => hc hmag)] at hmsg
          cases hrb : readBytes fb (leNat ((fb.drop (fb.length - FOOTER_SIZE)).take 8))
              (leNat (((fb.drop (fb.length - FOOTER_SIZE)).drop 8).take 4)) with
          | none =>
            rw [hrb] at hmsg
            dsimp only at hmsg
            have := OpenResult.err.inj hmsg
            exact Error.noConfusion this
          | some index_buf =>
            rw [hrb] at hmsg
            dsimp only at hmsg
            cases hpi : parseIndexRec index_buf [] with
            | none =>
              rw [hpi] at hmsg
              exact OpenResult.noConfusion hmsg
            | some index =>
              rw [hpi] at hmsg
              exact OpenResult.noConfusion hmsg
        · rintro ⟨_, hne⟩
          exact absurd hmag hne
      · have hopen : SSTable.open num fb
            = OpenResult.err (Error.Corruption "Invalid magic number") := by
          unfold SSTable.open
          rw [if_neg hlen]
          dsimp only
          rw [if_pos (by unfold footerMagic at hmag; exact hmag)]
        constructor
        · intro _
          exact ⟨by omega, hmag⟩
        · intro _
          exact ⟨"Invalid magic number", hopen⟩
  · intro es hwf hfb
    rw [hfb]
    exact sstOpen_buildFile num es hwf

/-- C2 witness: a 32-byte all-zero file (readable footer, wrong magic) is
rejected as corruption; a 3-byte file fails with an I/O error; a freshly
built one-entry file opens successfully with the expected index. -/
theorem sst_open_corruption_amended_witness :
    (∃ msg, SSTable.open 0 (List.replicate 32 0)
      = OpenResult.err (Error.Corruption msg)) ∧
    SSTable.open 0 [1, 2, 3] = OpenResult.err Error.Io ∧
    SSTable.open 5 (buildFile [([65], Value.Some [66])])
      = OpenResult.ok (builtReader 5 [([65], Value.Some [66])]) := by
  refine ⟨?_, ?_, ?_⟩
  · exact (sst_open_corruption_amended 0 (List.replicate 32 0) (by decide)).1.mpr
      ⟨by decide, by decide⟩
  · exact (sst_open_corruption_amended 0 [1, 2, 3] (by decide)).2.1 (by decide)
  · exact (sst_open_corruption_amended 5 (buildFile [([65], Value.Some [66])])
      (by decide)).2.2 [([65], Value.Some [66])] (by decide) rfl

end LsmKv
